import Mathlib

/-!
# Path tracer (`src/pathtrace.cpp`): shallow embedding and verified properties

The C++ file is embedded as pure Lean functions.

* `float` values are elements of an ordered field `R` (exact arithmetic, no rounding);
  the concrete test scenes use `ℚ`, the integral of the diffuse lobe uses `ℝ`.
* `int` values are `Int`.  The only integer arithmetic of the file is the remainder of
  `tile_f` and the increments `j += skip_row`, `depth + 1`, which stay far from the
  `int` range for every image that can be allocated.
* The headers `scene.h`, `intersect.h`, `montecarlo.h` are not part of the sources.  Their
  functions are taken as parameters (the fields of `Lib`), with the exception of the
  vector operators and of the change of basis of a frame, which have a single meaning.
* `Rng*` is a state of an arbitrary type `G`, threaded explicitly.
-/

namespace Pathtrace

/-! ## Integers: `tile_f` and the row loop -/

/-- `int tile_f(int x, int size)`: `x %= size` is the truncating remainder of C++. -/
def tile_f (x size : Int) : Int :=
  let x := Int.tmod x size
  if x < 0 then x + size else x

/-- `vec2f`. -/
@[ext]
structure Vec2 (R : Type) where
  x : R
  y : R
deriving DecidableEq

/-- `vec3f`. -/
@[ext]
structure Vec3 (R : Type) where
  x : R
  y : R
  z : R
deriving DecidableEq

/-- `frame3f`: origin and three axes. -/
structure Frame (R : Type) where
  o : Vec3 R
  x : Vec3 R
  y : Vec3 R
  z : Vec3 R

/-- `image3f` as the texture store of the spec: width, height and the accessor `at(i,j)`. -/
structure Image3 (R : Type) where
  width : Int
  height : Int
  at_ : Int → Int → Vec3 R

/-- `Material`. -/
structure Material (R : Type) where
  ke : Vec3 R
  kd : Vec3 R
  ks : Vec3 R
  n : R
  microfacet : Bool
  ke_txt : Option (Image3 R)
  kd_txt : Option (Image3 R)
  ks_txt : Option (Image3 R)
  norm_txt : Option (Image3 R)

/-- `intersection3f`: the answer of the intersection oracle. -/
structure Intersection (R : Type) where
  hit : Bool
  pos : Vec3 R
  norm : Vec3 R
  texcoord : Vec2 R
  mat : Material R

/-- `Light` (point light): `frame.o` is its position. -/
structure Light (R : Type) where
  frame : Frame R
  intensity : Vec3 R

/-- `Surface`: the fields read by the area-light loop. -/
structure Surface (R : Type) where
  frame : Frame R
  radius : R
  isquad : Bool
  mat : Material R

/-- `ray3f` as built by `ray3f(e, d)`. -/
structure Ray3 (R : Type) where
  e : Vec3 R
  d : Vec3 R

/-- The two kinds of argument given to `intersect_shadow`: `ray3f::make_segment(p, q)` and
`ray3f(e, d)`. -/
inductive ShadowRay (R : Type) where
  | segment (p q : Vec3 R)
  | ray (e d : Vec3 R)

/-- `Scene`: the fields read by `pathtrace_ray`. -/
structure Scene (R : Type) where
  background : Vec3 R
  background_txt : Option (Image3 R)
  ambient : Vec3 R
  lights : List (Light R)
  surfaces : List (Surface R)
  path_shadows : Bool
  path_max_depth : Int

/-- The functions and constants of the missing headers used by the file, as parameters. -/
structure Lib (R : Type) where
  pif : R
  sqrt : R → R
  pow : R → R → R
  atan2 : R → R → R
  acos : R → R
  frame_from_z : Vec3 R → Frame R
  transform_point : Frame R → Vec3 R → Vec3 R
  transform_normal : Frame R → Vec3 R → Vec3 R
  sample_direction_hemispherical_cosine : Vec2 R → Vec3 R
  sample_direction_hemispherical_cosine_pdf : Vec3 R → R
  sample_direction_hemispherical_cospower : Vec2 R → R → Vec3 R
  sample_direction_hemispherical_cospower_pdf : Vec3 R → R → R

/-- The external collaborators of the radiance estimator: the intersection oracle, the
shadow oracle (`true` = occluded) and the random stream with state `G`. -/
structure Oracles (R G : Type) where
  intersect : Ray3 R → Intersection R
  intersect_shadow : ShadowRay R → Bool
  next_float : G → R × G
  next_vec2f : G → Vec2 R × G

section Model

variable {R : Type} [LinearOrderedField R] [FloorRing R]

/-- `zero3f`. -/
def zero3f : Vec3 R := ⟨0, 0, 0⟩

/-- `one3f`. -/
def one3f : Vec3 R := ⟨1, 1, 1⟩

/-- `a + b` on `vec3f`. -/
def Vec3.add (a b : Vec3 R) : Vec3 R := ⟨a.x + b.x, a.y + b.y, a.z + b.z⟩

/-- `a - b` on `vec3f`. -/
def Vec3.sub (a b : Vec3 R) : Vec3 R := ⟨a.x - b.x, a.y - b.y, a.z - b.z⟩

/-- `-a` on `vec3f`. -/
def Vec3.neg (a : Vec3 R) : Vec3 R := ⟨-a.x, -a.y, -a.z⟩

/-- `a * b` on `vec3f`: componentwise product. -/
def Vec3.mul (a b : Vec3 R) : Vec3 R := ⟨a.x * b.x, a.y * b.y, a.z * b.z⟩

/-- `a * s` and `s * a` for a scalar `s`. -/
def Vec3.scale (a : Vec3 R) (s : R) : Vec3 R := ⟨a.x * s, a.y * s, a.z * s⟩

/-- `a / s` for a scalar `s`. -/
def Vec3.divs (a : Vec3 R) (s : R) : Vec3 R := ⟨a.x / s, a.y / s, a.z / s⟩

instance : Add (Vec3 R) := ⟨Vec3.add⟩
instance : Sub (Vec3 R) := ⟨Vec3.sub⟩
instance : Neg (Vec3 R) := ⟨Vec3.neg⟩
instance : Mul (Vec3 R) := ⟨Vec3.mul⟩

/-- `dot(a, b)`. -/
def dot (a b : Vec3 R) : R := a.x * b.x + a.y * b.y + a.z * b.z

/-- `lengthSqr(a)`. -/
def lengthSqr (a : Vec3 R) : R := dot a a

/-- `mean(a)`: the mean of the three components. -/
def mean (a : Vec3 R) : R := (a.x + a.y + a.z) / 3

/-- `length(a)`. -/
def length (lib : Lib R) (a : Vec3 R) : R := lib.sqrt (lengthSqr a)

/-- `normalize(a)`: the vector divided by its length. -/
def normalize (lib : Lib R) (a : Vec3 R) : Vec3 R := a.divs (length lib a)

/-- Modelled from the spec: `transform_direction` of the missing header, the map from the
local coordinates of an orthonormal frame to world space ("transform to world space"). -/
def transform_direction (f : Frame R) (v : Vec3 R) : Vec3 R :=
  f.x.scale v.x + f.y.scale v.y + f.z.scale v.z

/-- Modelled from the spec: `transform_direction_inverse` of the missing header, the
coordinates of a world direction in an orthonormal frame. -/
def transform_direction_inverse (f : Frame R) (v : Vec3 R) : Vec3 R :=
  ⟨dot v f.x, dot v f.y, dot v f.z⟩

/-- The conversion `int(x)` of a `float`: truncation toward zero. -/
def toInt (x : R) : Int := if 0 ≤ x then Int.floor x else Int.ceil x

/-- Modelled from the spec: `clamp(x, lo, hi)` of the missing header ("indices are clamped
into `[0, size-1]`"). -/
def clamp (x lo hi : Int) : Int := max lo (min x hi)

/-- Lines 20-21 of `lookup_scaled_texture`: the base texel indices `i`, `j`. -/
def texel_index (texture : Image3 R) (uv : Vec2 R) : Int × Int :=
  (toInt (uv.x * (texture.width : R)), toInt (uv.y * (texture.height : R)))

/-- Lines 23-24 of `lookup_scaled_texture`: the weights `s`, `t`. -/
def texel_weight (texture : Image3 R) (uv : Vec2 R) : R × R :=
  (uv.x * (texture.width : R) - ((texel_index texture uv).1 : R),
   uv.y * (texture.height : R) - ((texel_index texture uv).2 : R))

/-- `lookup_scaled_texture(value, texture, uv, tile)`. -/
def lookup_scaled_texture (value : Vec3 R) (texture : Option (Image3 R)) (uv : Vec2 R)
    (tile : Bool) : Vec3 R :=
  match texture with
  | none => value
  | some tex =>
    let i := (texel_index tex uv).1
    let j := (texel_index tex uv).2
    let s := (texel_weight tex uv).1
    let t := (texel_weight tex uv).2
    let i1 := i + 1
    let j1 := j + 1
    let i' := if tile then tile_f i tex.width else clamp i 0 (tex.width - 1)
    let j' := if tile then tile_f j tex.height else clamp j 0 (tex.height - 1)
    let i1' := if tile then tile_f i1 tex.width else clamp i1 0 (tex.width - 1)
    let j1' := if tile then tile_f j1 tex.height else clamp j1 0 (tex.height - 1)
    value * ((((tex.at_ i' j').scale (1 - s)).scale (1 - t) +
      ((tex.at_ i' j1').scale (1 - s)).scale t +
      ((tex.at_ i1' j').scale s).scale (1 - t)) +
      ((tex.at_ i1' j1').scale s).scale t)

/-- `eval_brdf(kd, ks, n, v, l, norm, microfacet)`. -/
def eval_brdf (lib : Lib R) (kd ks : Vec3 R) (n : R) (v l norm : Vec3 R) (microfacet : Bool) :
    Vec3 R :=
  let h := normalize lib (v + l)
  if ¬ microfacet then
    kd.divs lib.pif +
      ((ks.scale (n + 8)).divs (8 * lib.pif)).scale (lib.pow (max 0 (dot norm h)) n)
  else
    let d := (2 + n) / (2 * lib.pif) * lib.pow (max 0 (dot h norm)) n
    let f := ks + (one3f - ks).scale ((1 - dot h l) ^ 5)
    let g := min 1 (min (2 * dot h norm * dot v norm / dot v h)
      (2 * dot h norm * dot l norm / dot l h))
    (f.scale (d * g)).divs (4 * dot l norm * dot v norm)

/-- `eval_env(ke, ke_txt, dir)`. -/
def eval_env (lib : Lib R) (ke : Vec3 R) (ke_txt : Option (Image3 R)) (dir : Vec3 R) : Vec3 R :=
  let u := lib.atan2 dir.x dir.z / (2 * lib.pif)
  let v := 1 - lib.acos dir.y / lib.pif
  match ke_txt with
  | none => ke
  | some _ => lookup_scaled_texture ke ke_txt ⟨u, v⟩ true

/-- `sample_cosine(norm, ruv)`: direction and pdf. -/
def sample_cosine (lib : Lib R) (norm : Vec3 R) (ruv : Vec2 R) : Vec3 R × R :=
  let frame := lib.frame_from_z norm
  let l_local := lib.sample_direction_hemispherical_cosine ruv
  let pdf := lib.sample_direction_hemispherical_cosine_pdf l_local
  let l := transform_direction frame l_local
  (l, pdf)

/-- The mixture weight `dw` of `sample_brdf`. -/
def brdf_dw (kd ks : Vec3 R) : R := mean kd / (mean kd + mean ks)

/-- Lines 91-99 of `sample_brdf`: the pair `(l_local, h_local)` of the branch selected by
`rl < dw`. -/
def sample_brdf_local (lib : Lib R) (kd ks : Vec3 R) (n : R) (v norm : Vec3 R) (ruv : Vec2 R)
    (rl : R) : Vec3 R × Vec3 R :=
  let frame := lib.frame_from_z norm
  let dw := brdf_dw kd ks
  let v_local := transform_direction_inverse frame v
  if rl < dw then
    let l_local := lib.sample_direction_hemispherical_cosine ruv
    (l_local, normalize lib (l_local + v_local))
  else
    let h_local := lib.sample_direction_hemispherical_cospower ruv n
    ((-v_local) + (h_local.scale 2).scale (dot v_local h_local), h_local)

/-- The divisor `4*dot(v_local,h_local)` of line 102 of `sample_brdf`. -/
def sample_brdf_divisor (lib : Lib R) (kd ks : Vec3 R) (n : R) (v norm : Vec3 R) (ruv : Vec2 R)
    (rl : R) : R :=
  4 * dot (transform_direction_inverse (lib.frame_from_z norm) v)
    (sample_brdf_local lib kd ks n v norm ruv rl).2

/-- `sample_brdf(kd, ks, n, v, norm, ruv, rl)`: direction and pdf. -/
def sample_brdf (lib : Lib R) (kd ks : Vec3 R) (n : R) (v norm : Vec3 R) (ruv : Vec2 R)
    (rl : R) : Vec3 R × R :=
  if ks = zero3f then sample_cosine lib norm ruv
  else
    let frame := lib.frame_from_z norm
    let dw := brdf_dw kd ks
    let l_local := (sample_brdf_local lib kd ks n v norm ruv rl).1
    let h_local := (sample_brdf_local lib kd ks n v norm ruv rl).2
    let l := transform_direction frame l_local
    let dpdf := lib.sample_direction_hemispherical_cosine_pdf l_local
    let spdf := lib.sample_direction_hemispherical_cospower_pdf h_local n /
      sample_brdf_divisor lib kd ks n v norm ruv rl
    let pdf := dw * dpdf + (1 - dw) * spdf
    (l, pdf)

/-! ## The radiance estimator -/

/-- The value returned by `pathtrace_ray`, with the final state of the random stream and,
as instrumentation, the `depth` argument of every call that queried `intersect`, in order. -/
structure Radiance (R G : Type) where
  c : Vec3 R
  rng : G
  queries : List Int

/-- The shading inputs computed on a hit (lines 119-132): position, view direction and
the texture-resolved material values. -/
structure Shading (R : Type) where
  pos : Vec3 R
  norm : Vec3 R
  v : Vec3 R
  ke : Vec3 R
  kd : Vec3 R
  ks : Vec3 R
  n : R
  mf : Bool

/-- Lines 119-132 of `pathtrace_ray`. -/
def shading (ray : Ray3 R) (intersection : Intersection R) : Shading R :=
  let uv := intersection.texcoord
  { pos := intersection.pos
    norm := lookup_scaled_texture intersection.norm intersection.mat.norm_txt uv true
    v := -ray.d
    ke := lookup_scaled_texture intersection.mat.ke intersection.mat.ke_txt uv true
    kd := lookup_scaled_texture intersection.mat.kd intersection.mat.kd_txt uv true
    ks := lookup_scaled_texture intersection.mat.ks intersection.mat.ks_txt uv true
    n := intersection.mat.n
    mf := intersection.mat.microfacet }

/-- The tail shared by the three light loops (lines 153-161, 218-230, 251-259 without the
zero test): accumulate `shade` unless shadows are enabled and the oracle reports occlusion. -/
def accumulate {G : Type} (orc : Oracles R G) (scene : Scene R) (c shade : Vec3 R)
    (sray : ShadowRay R) : Vec3 R :=
  if scene.path_shadows then
    if ¬ orc.intersect_shadow sray then c + shade else c
  else c + shade

/-- The unoccluded contribution `shade` of one point light (lines 145-151). -/
def point_light_shade (lib : Lib R) (sh : Shading R) (light : Light R) : Vec3 R :=
  let cl := light.intensity.divs (lengthSqr (light.frame.o - sh.pos))
  let l := normalize lib (light.frame.o - sh.pos)
  let brdfcos := (eval_brdf lib sh.kd sh.ks sh.n sh.v l sh.norm sh.mf).scale
    (max (dot sh.norm l) 0)
  cl * brdfcos

/-- One iteration of the point-light loop (lines 143-162). -/
def point_light_step {G : Type} (lib : Lib R) (orc : Oracles R G) (scene : Scene R)
    (sh : Shading R) (c : Vec3 R) (light : Light R) : Vec3 R :=
  let shade := point_light_shade lib sh light
  if shade = zero3f then c
  else accumulate orc scene c shade (ShadowRay.segment sh.pos light.frame.o)

/-- One iteration of the area-light loop (lines 167-231) on the accumulator and the random
stream.  Both branches of `isquad` draw one `next_vec2f` and compute `S`, `Nl` alike; they
differ in `area`.  The stores to `intersection.texcoord` are not read afterwards. -/
def area_light_step {G : Type} (lib : Lib R) (orc : Oracles R G) (scene : Scene R)
    (sh : Shading R) (st : Vec3 R × G) (surf : Surface R) : Vec3 R × G :=
  if surf.mat.ke = zero3f then st
  else
    let uv := (orc.next_vec2f st.2).1
    let rng := (orc.next_vec2f st.2).2
    let S := lib.transform_point surf.frame
      ((⟨uv.x - 1 / 2, uv.y - 1 / 2, 0⟩ : Vec3 R).scale (2 * surf.radius))
    let Nl := lib.transform_normal surf.frame ⟨0, 0, 1⟩
    let area := if surf.isquad then (2 * surf.radius) ^ 2 else 4 * lib.pif * surf.radius ^ 2
    let kel := lookup_scaled_texture surf.mat.ke surf.mat.ke_txt uv false
    let l := normalize lib (S - sh.pos)
    let Cl := ((kel.scale area).scale (max 0 (-(dot Nl l)))).divs (lengthSqr (S - sh.pos))
    let brdfcos := (eval_brdf lib sh.kd sh.ks sh.n sh.v l sh.norm sh.mf).scale
      (max (dot sh.norm l) 0)
    let shade := Cl * brdfcos
    if shade = zero3f then (st.1, rng)
    else (accumulate orc scene st.1 shade (ShadowRay.segment sh.pos S), rng)

/-- The environment next-event estimation (lines 239-260).  The two draws that are the
arguments of `sample_brdf` are taken left to right. -/
def environment_step {G : Type} (lib : Lib R) (orc : Oracles R G) (scene : Scene R)
    (sh : Shading R) (st : Vec3 R × G) : Vec3 R × G :=
  if scene.background_txt.isSome then
    let ruv := (orc.next_vec2f st.2).1
    let rng1 := (orc.next_vec2f st.2).2
    let rl := (orc.next_float rng1).1
    let rng2 := (orc.next_float rng1).2
    let sample_env := sample_brdf lib sh.kd sh.ks sh.n sh.v sh.norm ruv rl
    let dir := sample_env.1
    let pdf := sample_env.2
    let brdfcos := (eval_brdf lib sh.kd sh.ks sh.n sh.v dir sh.norm sh.mf).scale
      (max (dot sh.norm dir) 0)
    let shade := (brdfcos * eval_env lib scene.background scene.background_txt dir).divs pdf
    (accumulate orc scene st.1 shade (ShadowRay.ray sh.pos dir), rng2)
  else st

/-- The direct part of `pathtrace_ray` on a hit (lines 135-260): ambient term, emission on
the first bounce, point lights, area lights, environment. -/
def direct_light {G : Type} (lib : Lib R) (orc : Oracles R G) (scene : Scene R)
    (sh : Shading R) (rng : G) (depth : Int) : Vec3 R × G :=
  let c := scene.ambient * sh.kd
  let c := if depth = 0 then c + sh.ke else c
  let c := scene.lights.foldl (point_light_step lib orc scene sh) c
  let st := scene.surfaces.foldl (area_light_step lib orc scene sh) (c, rng)
  environment_step lib orc scene sh st

/-- `pathtrace_ray(scene, ray, rng, depth)`. -/
def pathtrace_ray {G : Type} (lib : Lib R) (orc : Oracles R G) (scene : Scene R)
    (ray : Ray3 R) (rng : G) (depth : Int) : Radiance R G :=
  let intersection := orc.intersect ray
  if ¬ intersection.hit then
    ⟨eval_env lib scene.background scene.background_txt ray.d, rng, [depth]⟩
  else
    let sh := shading ray intersection
    let st := direct_light lib orc scene sh rng depth
    if _hd : depth < scene.path_max_depth then
      let ruv := (orc.next_vec2f st.2).1
      let rng1 := (orc.next_vec2f st.2).2
      let rl := (orc.next_float rng1).1
      let rng2 := (orc.next_float rng1).2
      let sample_ind := sample_brdf lib sh.kd sh.ks sh.n sh.v sh.norm ruv rl
      let dir := sample_ind.1
      let pdf := sample_ind.2
      let brdfcos := (eval_brdf lib sh.kd sh.ks sh.n sh.v dir sh.norm sh.mf).scale
        (max (dot sh.norm dir) 0)
      let new_ray : Ray3 R := ⟨sh.pos, dir⟩
      let r := pathtrace_ray lib orc scene new_ray rng2 (depth + 1)
      ⟨st.1 + (brdfcos * r.c).divs pdf, r.rng, depth :: r.queries⟩
    else
      ⟨st.1, st.2, [depth]⟩
termination_by (scene.path_max_depth - depth).toNat
decreasing_by omega

end Model

/-- The oracles with the shadow oracle replaced by `s`. -/
def Oracles.set_shadow {R G : Type} (orc : Oracles R G) (s : ShadowRay R → Bool) :
    Oracles R G :=
  { orc with intersect_shadow := s }

/-- The scene with the flag `path_shadows` set to `b`. -/
def Scene.set_shadows {R : Type} (scene : Scene R) (b : Bool) : Scene R :=
  { scene with path_shadows := b }

/-- The contract of an orthonormal frame: unit axes, pairwise orthogonal. -/
def Frame.orthonormal {R : Type} [LinearOrderedField R] (f : Frame R) : Prop :=
  dot f.x f.x = 1 ∧ dot f.y f.y = 1 ∧ dot f.z f.z = 1 ∧
    dot f.x f.y = 0 ∧ dot f.x f.z = 0 ∧ dot f.y f.z = 0

/-- The mixture density of the spec (4.3) as a function of the local outgoing direction
alone: `dw * diffusePdf(l) + (1-dw) * specularPdf(h)/(4*dot(view,h))` with `h` the half-vector
`normalize(l + view)` of the view direction and `l`. -/
def mixture_pdf {R : Type} [LinearOrderedField R] (lib : Lib R) (kd ks : Vec3 R) (n : R)
    (v norm : Vec3 R) (l_local : Vec3 R) : R :=
  let v_local := transform_direction_inverse (lib.frame_from_z norm) v
  let h := normalize lib (l_local + v_local)
  brdf_dw kd ks * lib.sample_direction_hemispherical_cosine_pdf l_local +
    (1 - brdf_dw kd ks) *
      (lib.sample_direction_hemispherical_cospower_pdf h n / (4 * dot v_local h))

/-! ## A concrete instance over `ℚ`, to run the code on test inputs -/

/-- Rational stand-in for `cos(2π t)`, exact at the quarter turns `t = 0, 1/4, 1/2, 3/4`. -/
def cos_turn (t : ℚ) : ℚ := if t = 0 then 1 else if t = 1 / 2 then -1 else 0

/-- Rational stand-in for `sin(2π t)`, exact at the quarter turns `t = 0, 1/4, 1/2, 3/4`. -/
def sin_turn (t : ℚ) : ℚ := if t = 1 / 4 then 1 else if t = 3 / 4 then -1 else 0

/-- Rational stand-in for `pow(x, e)`, exact when `e` is a natural number. -/
def pow_nat (x e : ℚ) : ℚ := x ^ (Int.toNat (Int.floor e))

/-- A library instance built from the scalar functions: the samplers are the usual
`(r cos φ, r sin φ, z)` with `r = sqrt(1 - z²)`, `φ = 2π ruv.x` given by `cos_turn`, `sin_turn`,
and `z = sqrt(ruv.y)` (cosine, pdf `z/π`) or `z = pow(ruv.y, 1/(n+1))` (cosine power, pdf
`(n+1) z^n/(2π)`); the pdfs vanish below the horizon.  `frame_from_z` keeps the world `x`, `y`
axes, which is an orthonormal frame for the normal `(0,0,1)`. -/
def plainLib {R : Type} [LinearOrderedField R] (pif : R) (sqrt : R → R) (pow : R → R → R)
    (atan2 : R → R → R) (acos : R → R) (cos_turn sin_turn : R → R) : Lib R where
  pif := pif
  sqrt := sqrt
  pow := pow
  atan2 := atan2
  acos := acos
  frame_from_z := fun norm => ⟨zero3f, ⟨1, 0, 0⟩, ⟨0, 1, 0⟩, norm⟩
  transform_point := fun f p => f.o + transform_direction f p
  transform_normal := fun f n => transform_direction f n
  sample_direction_hemispherical_cosine := fun ruv =>
    ⟨sqrt (1 - sqrt ruv.y * sqrt ruv.y) * cos_turn ruv.x,
     sqrt (1 - sqrt ruv.y * sqrt ruv.y) * sin_turn ruv.x, sqrt ruv.y⟩
  sample_direction_hemispherical_cosine_pdf := fun w => if w.z ≤ 0 then 0 else w.z / pif
  sample_direction_hemispherical_cospower := fun ruv n =>
    ⟨sqrt (1 - pow ruv.y (1 / (n + 1)) * pow ruv.y (1 / (n + 1))) * cos_turn ruv.x,
     sqrt (1 - pow ruv.y (1 / (n + 1)) * pow ruv.y (1 / (n + 1))) * sin_turn ruv.x,
     pow ruv.y (1 / (n + 1))⟩
  sample_direction_hemispherical_cospower_pdf := fun w n =>
    if w.z ≤ 0 then 0 else pow w.z n * (n + 1) / (2 * pif)

/-- The library instance over `ℚ` used to run the code: `pif` is `22/7`, `sqrt` is exact on
squares of rationals, `pow` on natural exponents, `acos` at `-1, 0, 1`, `atan2` at the
directions `(0, 1)` and `(±1, 0)`, the turns at quarter turns. -/
def testLib : Lib ℚ :=
  plainLib (22 / 7) Rat.sqrt pow_nat (fun x _ => 11 / 7 * x) (fun y => 11 / 7 * (1 - y))
    cos_turn sin_turn

/-- A material without textures and without emission. -/
def testMat (kd ks : Vec3 ℚ) (n : ℚ) : Material ℚ :=
  { ke := zero3f, kd := kd, ks := ks, n := n, microfacet := false,
    ke_txt := none, kd_txt := none, ks_txt := none, norm_txt := none }

/-- Oracles with constant answers: every ray gives the intersection `isect`, every shadow
query the answer `occluded`, every draw of the stream the values `ruv` and `rl`; the state of
the stream counts the draws. -/
def testOrc (isect : Intersection ℚ) (occluded : Bool) (ruv : Vec2 ℚ) (rl : ℚ) :
    Oracles ℚ Nat where
  intersect := fun _ => isect
  intersect_shadow := fun _ => occluded
  next_float := fun g => (rl, g + 1)
  next_vec2f := fun g => (ruv, g + 1)

/-- A hit at the origin of a white diffuse surface with normal `(0,0,1)`. -/
def testHit : Intersection ℚ :=
  { hit := true, pos := zero3f, norm := ⟨0, 0, 1⟩, texcoord := ⟨0, 0⟩,
    mat := testMat one3f zero3f 1 }

/-- A white texture of one texel. -/
def whiteTexture : Image3 ℚ := ⟨1, 1, fun _ _ => one3f⟩

/-- A scene without lights and without surfaces in the area-light list, with ambient term
`1/10`, white background, `path_max_depth = 0`, shadows off, and the given background
texture. -/
def darkScene (background_txt : Option (Image3 ℚ)) : Scene ℚ :=
  { background := one3f, background_txt := background_txt, ambient := ⟨1 / 10, 1 / 10, 1 / 10⟩,
    lights := [], surfaces := [], path_shadows := false, path_max_depth := 0 }

/-- The camera ray looking down the `z` axis. -/
def testRay : Ray3 ℚ := ⟨⟨0, 0, 1⟩, ⟨0, 0, -1⟩⟩

/-- A hit at the origin of a white diffuse surface with emission `1/2`. -/
def glowHit : Intersection ℚ :=
  { hit := true, pos := zero3f, norm := ⟨0, 0, 1⟩, texcoord := ⟨0, 0⟩,
    mat := { testMat one3f zero3f 1 with ke := ⟨1 / 2, 1 / 2, 1 / 2⟩ } }

/-- The answer of the intersection oracle for a ray that leaves the scene. -/
def testMiss : Intersection ℚ := { testHit with hit := false }

/-- A white point light two units above the origin. -/
def testLight : Light ℚ := ⟨⟨⟨0, 0, 2⟩, ⟨1, 0, 0⟩, ⟨0, 1, 0⟩, ⟨0, 0, 1⟩⟩, one3f⟩

/-- A scene with the point light `testLight`, no area light, no background texture and
`path_max_depth = 2`. -/
def bounceScene : Scene ℚ :=
  { background := one3f, background_txt := none, ambient := ⟨1 / 10, 1 / 10, 1 / 10⟩,
    lights := [testLight], surfaces := [], path_shadows := true, path_max_depth := 2 }

/-- A texture of 2 by 2 texels: white in column 0, black in column 1. -/
def stripeTexture : Image3 ℚ := ⟨2, 2, fun i _ => if i = 0 then one3f else zero3f⟩

/-! ### Lemmas on the truncating remainder -/

theorem tmod_bounds (x s : Int) (hs : 0 < s) : -s < Int.tmod x s ∧ Int.tmod x s < s := by
  refine ⟨?_, Int.tmod_lt_of_pos x hs⟩
  rcases Int.lt_or_le x 0 with hx | hx
  · obtain ⟨n, rfl⟩ := Int.eq_negSucc_of_lt_zero hx
    obtain ⟨k, rfl⟩ := Int.eq_ofNat_of_zero_le (Int.le_of_lt hs)
    have hk : 0 < k := by omega
    show -(k : Int) < -((Nat.succ n % k : Nat) : Int)
    have := Nat.mod_lt (Nat.succ n) hk
    omega
  · have := Int.tmod_nonneg s hx
    omega

theorem emod_of_congr (x r s q : Int) (h0 : 0 ≤ r) (h1 : r < s) (hx : x = r + s * q) :
    x % s = r := by
  subst hx
  rw [Int.add_mul_emod_self_left]
  exact Int.emod_eq_of_lt h0 h1

theorem tile_f_eq_emod (x size : Int) (h : 1 ≤ size) : tile_f x size = x % size := by
  have hb := tmod_bounds x size (by omega)
  have hd := Int.tmod_add_tdiv x size
  unfold tile_f
  simp only
  split
  · symm
    apply emod_of_congr x _ size (Int.tdiv x size - 1) (by omega) (by omega)
    rw [Int.mul_sub]; omega
  · symm
    apply emod_of_congr x _ size (Int.tdiv x size) (by omega) (by omega)
    omega

/-! ### Lemmas on the row loop -/

section VecLemmas

variable {R : Type} [LinearOrderedField R]

@[simp] theorem Vec3.add_x (a b : Vec3 R) : (a + b).x = a.x + b.x := rfl
@[simp] theorem Vec3.add_y (a b : Vec3 R) : (a + b).y = a.y + b.y := rfl
@[simp] theorem Vec3.add_z (a b : Vec3 R) : (a + b).z = a.z + b.z := rfl
@[simp] theorem Vec3.sub_x (a b : Vec3 R) : (a - b).x = a.x - b.x := rfl
@[simp] theorem Vec3.sub_y (a b : Vec3 R) : (a - b).y = a.y - b.y := rfl
@[simp] theorem Vec3.sub_z (a b : Vec3 R) : (a - b).z = a.z - b.z := rfl
@[simp] theorem Vec3.neg_x (a : Vec3 R) : (-a).x = -a.x := rfl
@[simp] theorem Vec3.neg_y (a : Vec3 R) : (-a).y = -a.y := rfl
@[simp] theorem Vec3.neg_z (a : Vec3 R) : (-a).z = -a.z := rfl
@[simp] theorem Vec3.mul_x (a b : Vec3 R) : (a * b).x = a.x * b.x := rfl
@[simp] theorem Vec3.mul_y (a b : Vec3 R) : (a * b).y = a.y * b.y := rfl
@[simp] theorem Vec3.mul_z (a b : Vec3 R) : (a * b).z = a.z * b.z := rfl
@[simp] theorem Vec3.scale_x (a : Vec3 R) (s : R) : (a.scale s).x = a.x * s := rfl
@[simp] theorem Vec3.scale_y (a : Vec3 R) (s : R) : (a.scale s).y = a.y * s := rfl
@[simp] theorem Vec3.scale_z (a : Vec3 R) (s : R) : (a.scale s).z = a.z * s := rfl
@[simp] theorem Vec3.divs_x (a : Vec3 R) (s : R) : (a.divs s).x = a.x / s := rfl
@[simp] theorem Vec3.divs_y (a : Vec3 R) (s : R) : (a.divs s).y = a.y / s := rfl
@[simp] theorem Vec3.divs_z (a : Vec3 R) (s : R) : (a.divs s).z = a.z / s := rfl
@[simp] theorem zero3f_x : (zero3f : Vec3 R).x = 0 := rfl
@[simp] theorem zero3f_y : (zero3f : Vec3 R).y = 0 := rfl
@[simp] theorem zero3f_z : (zero3f : Vec3 R).z = 0 := rfl

theorem Vec3.add_zero3f (a : Vec3 R) : a + zero3f = a := by
  ext <;> simp

theorem Vec3.zero3f_mul (a : Vec3 R) : zero3f * a = zero3f := by
  ext <;> simp

end VecLemmas

section TextureLemmas

variable {R : Type} [LinearOrderedField R] [FloorRing R]

theorem lookup_const (value a : Vec3 R) (w h : Int) (uv : Vec2 R) (tile : Bool) :
    lookup_scaled_texture value (some ⟨w, h, fun _ _ => a⟩) uv tile = value * a := by
  simp only [lookup_scaled_texture]
  ext
  · simp only [Vec3.mul_x, Vec3.add_x, Vec3.scale_x]; ring
  · simp only [Vec3.mul_y, Vec3.add_y, Vec3.scale_y]; ring
  · simp only [Vec3.mul_z, Vec3.add_z, Vec3.scale_z]; ring

theorem lookup_none (value : Vec3 R) (uv : Vec2 R) (tile : Bool) :
    lookup_scaled_texture value none uv tile = value := rfl

omit [FloorRing R] in
theorem eval_brdf_diffuse (lib : Lib R) (kd : Vec3 R) (n : R) (v l norm : Vec3 R) :
    eval_brdf lib kd zero3f n v l norm false = kd.divs lib.pif := by
  unfold eval_brdf
  ext <;> simp

theorem lookup_zero3f (texture : Option (Image3 R)) (uv : Vec2 R) (tile : Bool) :
    lookup_scaled_texture zero3f texture uv tile = zero3f := by
  cases texture with
  | none => rfl
  | some tex => simp only [lookup_scaled_texture]; exact Vec3.zero3f_mul _

end TextureLemmas

/-! ### Lemmas on the radiance estimator -/

section EstimatorLemmas

variable {R : Type} [LinearOrderedField R] [FloorRing R] {G : Type}

theorem foldl_area_skip (lib : Lib R) (orc : Oracles R G) (scene : Scene R) (sh : Shading R) :
    ∀ (surfaces : List (Surface R)) (st : Vec3 R × G),
      (∀ surf ∈ surfaces, surf.mat.ke = zero3f) →
      surfaces.foldl (area_light_step lib orc scene sh) st = st := by
  intro surfaces
  induction surfaces with
  | nil => intro st _; rfl
  | cons surf rest ih =>
    intro st h
    have h0 : surf.mat.ke = zero3f := h surf (List.mem_cons_self _ _)
    rw [List.foldl_cons]
    have : area_light_step lib orc scene sh st surf = st := by
      unfold area_light_step
      rw [if_pos h0]
    rw [this]
    exact ih st (fun s hs => h s (List.mem_cons_of_mem _ hs))

theorem direct_light_dark (lib : Lib R) (orc : Oracles R G) (scene : Scene R) (sh : Shading R)
    (rng : G) (depth : Int) (hl : scene.lights = [])
    (hs : ∀ surf ∈ scene.surfaces, surf.mat.ke = zero3f) (hb : scene.background_txt = none) :
    direct_light lib orc scene sh rng depth =
      (if depth = 0 then scene.ambient * sh.kd + sh.ke else scene.ambient * sh.kd, rng) := by
  unfold direct_light
  simp only [hl, List.foldl_nil]
  rw [foldl_area_skip lib orc scene sh scene.surfaces _ hs]
  unfold environment_step
  simp [hb]

theorem pathtrace_ray_miss (lib : Lib R) (orc : Oracles R G) (scene : Scene R) (ray : Ray3 R)
    (rng : G) (depth : Int) (hmiss : (orc.intersect ray).hit = false) :
    pathtrace_ray lib orc scene ray rng depth =
      ⟨eval_env lib scene.background scene.background_txt ray.d, rng, [depth]⟩ := by
  rw [pathtrace_ray]
  simp [hmiss]

theorem pathtrace_ray_leaf (lib : Lib R) (orc : Oracles R G) (scene : Scene R) (ray : Ray3 R)
    (rng : G) (depth : Int) (hhit : (orc.intersect ray).hit = true)
    (hd : scene.path_max_depth ≤ depth) :
    pathtrace_ray lib orc scene ray rng depth =
      ⟨(direct_light lib orc scene (shading ray (orc.intersect ray)) rng depth).1,
       (direct_light lib orc scene (shading ray (orc.intersect ray)) rng depth).2, [depth]⟩ := by
  rw [pathtrace_ray]
  have : ¬ depth < scene.path_max_depth := by omega
  simp [hhit, this]

theorem pathtrace_ray_queries_step (lib : Lib R) (orc : Oracles R G) (scene : Scene R)
    (ray : Ray3 R) (rng : G) (depth : Int) (hhit : (orc.intersect ray).hit = true)
    (hd : depth < scene.path_max_depth) :
    ∃ (ray2 : Ray3 R) (rng2 : G),
      (pathtrace_ray lib orc scene ray rng depth).queries =
        depth :: (pathtrace_ray lib orc scene ray2 rng2 (depth + 1)).queries := by
  rw [pathtrace_ray]
  simp only [hhit, hd]
  exact ⟨_, _, rfl⟩

theorem pathtrace_ray_queries (lib : Lib R) (orc : Oracles R G) (scene : Scene R) :
    ∀ (m : Nat) (depth : Int) (ray : Ray3 R) (rng : G),
      (scene.path_max_depth - depth).toNat = m →
      ∃ k : Nat, k ≤ m ∧ (pathtrace_ray lib orc scene ray rng depth).queries =
        (List.range (k + 1)).map (fun (i : Nat) => depth + (i : Int)) := by
  intro m
  induction m with
  | zero =>
    intro depth ray rng hm
    refine ⟨0, le_refl _, ?_⟩
    by_cases hhit : (orc.intersect ray).hit = true
    · rw [pathtrace_ray_leaf lib orc scene ray rng depth hhit (by omega)]
      simp [List.range_succ]
    · rw [pathtrace_ray_miss lib orc scene ray rng depth (by simpa using hhit)]
      simp [List.range_succ]
  | succ m ih =>
    intro depth ray rng hm
    by_cases hhit : (orc.intersect ray).hit = true
    · obtain ⟨ray2, rng2, hq⟩ :=
        pathtrace_ray_queries_step lib orc scene ray rng depth hhit (by omega)
      obtain ⟨k, hk, hk2⟩ := ih (depth + 1) ray2 rng2 (by omega)
      refine ⟨k + 1, by omega, ?_⟩
      rw [hq, hk2, List.range_succ_eq_map (k + 1)]
      simp only [List.map_cons, List.map_map]
      congr 1
      · simp
      · apply List.map_congr_left
        intro i _
        simp only [Function.comp, Nat.succ_eq_add_one]
        push_cast
        ring
    · refine ⟨0, by omega, ?_⟩
      rw [pathtrace_ray_miss lib orc scene ray rng depth (by simpa using hhit)]
      simp [List.range_succ]

theorem direct_light_shadow_congr (lib : Lib R) (orc : Oracles R G) (scene : Scene R)
    (b1 b2 : Bool) (s1 s2 : ShadowRay R → Bool)
    (hacc : ∀ c shade sray,
      accumulate (orc.set_shadow s1) (scene.set_shadows b1) c shade sray =
        accumulate (orc.set_shadow s2) (scene.set_shadows b2) c shade sray)
    (sh : Shading R) (rng : G) (depth : Int) :
    direct_light lib (orc.set_shadow s1) (scene.set_shadows b1) sh rng depth =
      direct_light lib (orc.set_shadow s2) (scene.set_shadows b2) sh rng depth := by
  have hp : point_light_step lib (orc.set_shadow s1) (scene.set_shadows b1) sh =
      point_light_step lib (orc.set_shadow s2) (scene.set_shadows b2) sh := by
    funext c light
    unfold point_light_step
    simp only [hacc]
  have ha : area_light_step lib (orc.set_shadow s1) (scene.set_shadows b1) sh =
      area_light_step lib (orc.set_shadow s2) (scene.set_shadows b2) sh := by
    funext st surf
    unfold area_light_step
    simp only [hacc]
    rfl
  have he : environment_step lib (orc.set_shadow s1) (scene.set_shadows b1) sh =
      environment_step lib (orc.set_shadow s2) (scene.set_shadows b2) sh := by
    funext st
    unfold environment_step
    simp only [hacc]
    rfl
  unfold direct_light
  rw [hp, ha, he]
  rfl

theorem pathtrace_ray_shadow_congr (lib : Lib R) (orc : Oracles R G) (scene : Scene R)
    (b1 b2 : Bool) (s1 s2 : ShadowRay R → Bool)
    (hacc : ∀ c shade sray,
      accumulate (orc.set_shadow s1) (scene.set_shadows b1) c shade sray =
        accumulate (orc.set_shadow s2) (scene.set_shadows b2) c shade sray) :
    ∀ (m : Nat) (depth : Int) (ray : Ray3 R) (rng : G),
      (scene.path_max_depth - depth).toNat = m →
      pathtrace_ray lib (orc.set_shadow s1) (scene.set_shadows b1) ray rng depth =
        pathtrace_ray lib (orc.set_shadow s2) (scene.set_shadows b2) ray rng depth := by
  intro m
  induction m with
  | zero =>
    intro depth ray rng hm
    by_cases hhit : (orc.intersect ray).hit = true
    · rw [pathtrace_ray_leaf lib (orc.set_shadow s1) (scene.set_shadows b1) ray rng depth hhit
          (by show scene.path_max_depth ≤ depth; omega),
        pathtrace_ray_leaf lib (orc.set_shadow s2) (scene.set_shadows b2) ray rng depth hhit
          (by show scene.path_max_depth ≤ depth; omega)]
      have e : (orc.set_shadow s1).intersect ray = (orc.set_shadow s2).intersect ray := rfl
      rw [e, direct_light_shadow_congr lib orc scene b1 b2 s1 s2 hacc]
    · have hmiss : (orc.intersect ray).hit = false := by simpa using hhit
      rw [pathtrace_ray_miss lib (orc.set_shadow s1) (scene.set_shadows b1) ray rng depth hmiss,
        pathtrace_ray_miss lib (orc.set_shadow s2) (scene.set_shadows b2) ray rng depth hmiss]
      rfl
  | succ m ih =>
    intro depth ray rng hm
    by_cases hhit : (orc.intersect ray).hit = true
    · have hd : depth < scene.path_max_depth := by omega
      have h1 : ((orc.set_shadow s1).intersect ray).hit = true := hhit
      have h2 : ((orc.set_shadow s2).intersect ray).hit = true := hhit
      have d1 : depth < (scene.set_shadows b1).path_max_depth := hd
      have d2 : depth < (scene.set_shadows b2).path_max_depth := hd
      conv_lhs => rw [pathtrace_ray]
      conv_rhs => rw [pathtrace_ray]
      simp only [h1, h2, d1, d2]
      have e : (orc.set_shadow s1).intersect ray = (orc.set_shadow s2).intersect ray := rfl
      rw [e, direct_light_shadow_congr lib orc scene b1 b2 s1 s2 hacc]
      simp only [not_true_eq_false, if_false, dite_true]
      have n1 : (orc.set_shadow s1).next_vec2f = (orc.set_shadow s2).next_vec2f := rfl
      have n2 : (orc.set_shadow s1).next_float = (orc.set_shadow s2).next_float := rfl
      rw [n1, n2, ih (depth + 1) _ _ (by omega)]
    · have hmiss : (orc.intersect ray).hit = false := by simpa using hhit
      rw [pathtrace_ray_miss lib (orc.set_shadow s1) (scene.set_shadows b1) ray rng depth hmiss,
        pathtrace_ray_miss lib (orc.set_shadow s2) (scene.set_shadows b2) ray rng depth hmiss]
      rfl

end EstimatorLemmas

/-! ### Lemmas on the direction sampler -/

section SamplerLemmas

variable {R : Type} [LinearOrderedField R]

theorem orthonormal_columns (a b c d e f g h i : R)
    (h1 : a * a + b * b + c * c = 1) (h2 : d * d + e * e + f * f = 1)
    (h3 : g * g + h * h + i * i = 1) (h4 : a * d + b * e + c * f = 0)
    (h5 : a * g + b * h + c * i = 0) (h6 : d * g + e * h + f * i = 0) :
    (a * a + d * d + g * g = 1 ∧ b * b + e * e + h * h = 1 ∧ c * c + f * f + i * i = 1) ∧
    (a * b + d * e + g * h = 0 ∧ a * c + d * f + g * i = 0 ∧ b * c + e * f + h * i = 0) := by
  let A : Matrix (Fin 3) (Fin 3) R := Matrix.of ![![a, b, c], ![d, e, f], ![g, h, i]]
  have hA : A * A.transpose = 1 := by
    rw [← Matrix.ext_iff]
    simp only [Fin.forall_fin_succ, Matrix.mul_apply, Fin.sum_univ_three,
      Matrix.transpose_apply]
    simp [A, Matrix.one_apply]
    refine ⟨⟨h1, h4, h5⟩, ⟨?_, h2, h6⟩, ?_, ?_, h3⟩ <;> linarith
  have hB : A.transpose * A = 1 := (Matrix.mul_eq_one_comm).mp hA
  rw [← Matrix.ext_iff] at hB
  simp only [Fin.forall_fin_succ, Matrix.mul_apply, Fin.sum_univ_three,
    Matrix.transpose_apply] at hB
  simp [A, Matrix.one_apply] at hB
  obtain ⟨⟨e00, e01, e02⟩, ⟨-, e11, e12⟩, -, -, e22⟩ := hB
  exact ⟨⟨e00, e11, e22⟩, e01, e02, e12⟩

theorem frame_parseval (f : Frame R) (hf : f.orthonormal) (v : Vec3 R) :
    dot (transform_direction_inverse f v) (transform_direction_inverse f v) = dot v v := by
  obtain ⟨h1, h2, h3, h4, h5, h6⟩ := hf
  simp only [dot] at h1 h2 h3 h4 h5 h6
  obtain ⟨⟨c1, c2, c3⟩, c4, c5, c6⟩ :=
    orthonormal_columns f.x.x f.x.y f.x.z f.y.x f.y.y f.y.z f.z.x f.z.y f.z.z h1 h2 h3 h4 h5 h6
  simp only [dot, transform_direction_inverse]
  linear_combination v.x * v.x * c1 + v.y * v.y * c2 + v.z * v.z * c3 +
    2 * v.x * v.y * c4 + 2 * v.x * v.z * c5 + 2 * v.y * v.z * c6

theorem frame_z_coordinate (f : Frame R) (hf : f.orthonormal) (w : Vec3 R) :
    dot (transform_direction f w) f.z = w.z := by
  obtain ⟨_, _, h3, _, h5, h6⟩ := hf
  simp only [dot] at h3 h5 h6
  simp only [dot, transform_direction, Vec3.add_x, Vec3.add_y, Vec3.add_z, Vec3.scale_x,
    Vec3.scale_y, Vec3.scale_z]
  linear_combination w.x * h5 + w.y * h6 + w.z * h3

theorem brdf_dw_range (kd ks : Vec3 R) (hkd : 0 ≤ kd.x ∧ 0 ≤ kd.y ∧ 0 ≤ kd.z)
    (hks : 0 ≤ ks.x ∧ 0 ≤ ks.y ∧ 0 ≤ ks.z) (hks0 : ks ≠ zero3f) :
    0 ≤ brdf_dw kd ks ∧ brdf_dw kd ks < 1 := by
  have ha : 0 ≤ mean kd := by
    unfold mean
    have : 0 ≤ kd.x + kd.y + kd.z := by linarith [hkd.1, hkd.2.1, hkd.2.2]
    positivity
  have hb : 0 < mean ks := by
    unfold mean
    have : 0 < ks.x + ks.y + ks.z := by
      by_contra hneg
      apply hks0
      have hx : ks.x = 0 := by linarith [hks.1, hks.2.1, hks.2.2]
      have hy : ks.y = 0 := by linarith [hks.1, hks.2.1, hks.2.2]
      have hz : ks.z = 0 := by linarith [hks.1, hks.2.1, hks.2.2]
      ext <;> simp [hx, hy, hz]
    positivity
  unfold brdf_dw
  constructor
  · positivity
  · rw [div_lt_one (by linarith)]
    linarith

theorem sample_brdf_pdf (lib : Lib R) (kd ks : Vec3 R) (n : R) (v norm : Vec3 R) (ruv : Vec2 R)
    (rl : R) (hks0 : ks ≠ zero3f) :
    (sample_brdf lib kd ks n v norm ruv rl).2 =
      brdf_dw kd ks *
        lib.sample_direction_hemispherical_cosine_pdf
          (sample_brdf_local lib kd ks n v norm ruv rl).1 +
      (1 - brdf_dw kd ks) *
        (lib.sample_direction_hemispherical_cospower_pdf
          (sample_brdf_local lib kd ks n v norm ruv rl).2 n /
          sample_brdf_divisor lib kd ks n v norm ruv rl) := by
  unfold sample_brdf
  rw [if_neg hks0]

theorem sample_brdf_direction (lib : Lib R) (kd ks : Vec3 R) (n : R) (v norm : Vec3 R)
    (ruv : Vec2 R) (rl : R) (hks0 : ks ≠ zero3f) :
    (sample_brdf lib kd ks n v norm ruv rl).1 =
      transform_direction (lib.frame_from_z norm)
        (sample_brdf_local lib kd ks n v norm ruv rl).1 := by
  unfold sample_brdf
  rw [if_neg hks0]

theorem sample_brdf_local_diffuse (lib : Lib R) (kd ks : Vec3 R) (n : R) (v norm : Vec3 R)
    (ruv : Vec2 R) (rl : R) (hrl : rl < brdf_dw kd ks) :
    sample_brdf_local lib kd ks n v norm ruv rl =
      (lib.sample_direction_hemispherical_cosine ruv,
       normalize lib (lib.sample_direction_hemispherical_cosine ruv +
         transform_direction_inverse (lib.frame_from_z norm) v)) := by
  unfold sample_brdf_local
  simp only [hrl, if_true]

theorem sample_brdf_local_specular (lib : Lib R) (kd ks : Vec3 R) (n : R) (v norm : Vec3 R)
    (ruv : Vec2 R) (rl : R) (hrl : ¬ rl < brdf_dw kd ks) :
    sample_brdf_local lib kd ks n v norm ruv rl =
      ((-transform_direction_inverse (lib.frame_from_z norm) v) +
        ((lib.sample_direction_hemispherical_cospower ruv n).scale 2).scale
          (dot (transform_direction_inverse (lib.frame_from_z norm) v)
            (lib.sample_direction_hemispherical_cospower ruv n)),
       lib.sample_direction_hemispherical_cospower ruv n) := by
  unfold sample_brdf_local
  simp only [hrl, if_false]

/-- The half-vector of the diffuse branch: for unit `l` and `v` with `l.z ≥ 0 < v.z`,
`h = normalize(l + v)` has `dot(v,h) > 0` and `h.z > 0`. -/
theorem diffuse_half_vector (lib : Lib R) (hsqrt : ∀ x, 0 < x → 0 < lib.sqrt x) (l v : Vec3 R)
    (hl : dot l l = 1) (hv : dot v v = 1) (hlz : 0 ≤ l.z) (hvz : 0 < v.z) :
    0 < dot v (normalize lib (l + v)) ∧ 0 < (normalize lib (l + v)).z := by
  have hpos : 0 < lengthSqr (l + v) := by
    simp only [lengthSqr, dot, Vec3.add_x, Vec3.add_y, Vec3.add_z]
    have hz : 0 < (l.z + v.z) * (l.z + v.z) := by
      have : 0 < l.z + v.z := by linarith
      positivity
    nlinarith [mul_self_nonneg (l.x + v.x), mul_self_nonneg (l.y + v.y)]
  have hs : 0 < lib.sqrt (lengthSqr (l + v)) := hsqrt _ hpos
  have hnum : 0 < dot v (l + v) := by
    have e : 2 * dot v (l + v) = lengthSqr (l + v) := by
      simp only [lengthSqr, dot, Vec3.add_x, Vec3.add_y, Vec3.add_z] at hl hv ⊢
      linear_combination (-1 : R) * hl + hv
    linarith
  constructor
  · have e : dot v (normalize lib (l + v)) = dot v (l + v) / lib.sqrt (lengthSqr (l + v)) := by
      simp only [normalize, length, dot, Vec3.divs_x, Vec3.divs_y, Vec3.divs_z]
      ring
    rw [e]
    exact div_pos hnum hs
  · simp only [normalize, length, Vec3.divs_z, Vec3.add_z]
    exact div_pos (by linarith) hs

end SamplerLemmas

section SamplerClaims

variable {R : Type} [LinearOrderedField R]

/-- C5 (amended): for `kd`, `ks` with nonnegative components, `ks` not zero, a unit view
direction `v` with `dot(v, normal) > 0`, and library functions meeting their contracts
(orthonormal frame with `z = normal`, unit upper-hemisphere samples, nonnegative pdfs, the
cosine-power pdf positive above the horizon, `sqrt` positive on positives): the pdf returned
by `sample_brdf` is nonnegative whenever the divisor `4*dot(v_local,h_local)` is positive; the
divisor and the pdf are strictly positive whenever the diffuse branch is taken (`rl < dw`),
and whenever the returned direction lies in the upper hemisphere. -/
theorem sample_brdf_density (lib : Lib R) (kd ks : Vec3 R) (n : R) (v norm : Vec3 R)
    (ruv : Vec2 R) (rl : R)
    (hkd : 0 ≤ kd.x ∧ 0 ≤ kd.y ∧ 0 ≤ kd.z) (hks : 0 ≤ ks.x ∧ 0 ≤ ks.y ∧ 0 ≤ ks.z)
    (hks0 : ks ≠ zero3f) (hv : dot v v = 1) (hvn : 0 < dot v norm)
    (hsqrt : ∀ x, 0 < x → 0 < lib.sqrt x)
    (hframe : (lib.frame_from_z norm).orthonormal ∧ (lib.frame_from_z norm).z = norm)
    (hcos : dot (lib.sample_direction_hemispherical_cosine ruv)
        (lib.sample_direction_hemispherical_cosine ruv) = 1 ∧
      0 ≤ (lib.sample_direction_hemispherical_cosine ruv).z)
    (hpow : 0 ≤ (lib.sample_direction_hemispherical_cospower ruv n).z)
    (hdpdf : ∀ w, 0 ≤ lib.sample_direction_hemispherical_cosine_pdf w)
    (hspdf : ∀ w, 0 ≤ lib.sample_direction_hemispherical_cospower_pdf w n ∧
      (0 < w.z → 0 < lib.sample_direction_hemispherical_cospower_pdf w n)) :
    (0 < sample_brdf_divisor lib kd ks n v norm ruv rl →
      0 ≤ (sample_brdf lib kd ks n v norm ruv rl).2) ∧
    (rl < brdf_dw kd ks →
      0 < sample_brdf_divisor lib kd ks n v norm ruv rl ∧
      0 < (sample_brdf lib kd ks n v norm ruv rl).2) ∧
    (0 < dot (sample_brdf lib kd ks n v norm ruv rl).1 norm →
      0 < sample_brdf_divisor lib kd ks n v norm ruv rl ∧
      0 < (sample_brdf lib kd ks n v norm ruv rl).2) := by
  obtain ⟨hdw0, hdw1⟩ := brdf_dw_range kd ks hkd hks hks0
  have hvl : dot (transform_direction_inverse (lib.frame_from_z norm) v)
      (transform_direction_inverse (lib.frame_from_z norm) v) = 1 := by
    rw [frame_parseval _ hframe.1, hv]
  have hvz : 0 < (transform_direction_inverse (lib.frame_from_z norm) v).z := by
    show 0 < dot v (lib.frame_from_z norm).z
    rw [hframe.2]; exact hvn
  -- positivity of the pdf from positivity of the divisor and of the half-vector height
  have hpos : 0 < sample_brdf_divisor lib kd ks n v norm ruv rl →
      0 < (sample_brdf_local lib kd ks n v norm ruv rl).2.z →
      0 < (sample_brdf lib kd ks n v norm ruv rl).2 := by
    intro hdiv hz
    rw [sample_brdf_pdf lib kd ks n v norm ruv rl hks0]
    have h1 := mul_nonneg hdw0 (hdpdf (sample_brdf_local lib kd ks n v norm ruv rl).1)
    have h2 : 0 < (1 - brdf_dw kd ks) *
        (lib.sample_direction_hemispherical_cospower_pdf
          (sample_brdf_local lib kd ks n v norm ruv rl).2 n /
          sample_brdf_divisor lib kd ks n v norm ruv rl) :=
      mul_pos (by linarith) (div_pos ((hspdf _).2 hz) hdiv)
    linarith
  have hdiff : rl < brdf_dw kd ks →
      0 < sample_brdf_divisor lib kd ks n v norm ruv rl ∧
      0 < (sample_brdf lib kd ks n v norm ruv rl).2 := by
    intro hrl
    obtain ⟨g1, g2⟩ := diffuse_half_vector lib hsqrt _ _ hcos.1 hvl hcos.2 hvz
    have hdiv : 0 < sample_brdf_divisor lib kd ks n v norm ruv rl := by
      unfold sample_brdf_divisor
      rw [sample_brdf_local_diffuse lib kd ks n v norm ruv rl hrl]
      exact mul_pos (by norm_num) g1
    refine ⟨hdiv, hpos hdiv ?_⟩
    rw [sample_brdf_local_diffuse lib kd ks n v norm ruv rl hrl]
    exact g2
  refine ⟨?_, hdiff, ?_⟩
  · intro hdiv
    rw [sample_brdf_pdf lib kd ks n v norm ruv rl hks0]
    have h1 := mul_nonneg hdw0 (hdpdf (sample_brdf_local lib kd ks n v norm ruv rl).1)
    have h2 : 0 ≤ (1 - brdf_dw kd ks) *
        (lib.sample_direction_hemispherical_cospower_pdf
          (sample_brdf_local lib kd ks n v norm ruv rl).2 n /
          sample_brdf_divisor lib kd ks n v norm ruv rl) :=
      mul_nonneg (by linarith) (div_nonneg (hspdf _).1 (le_of_lt hdiv))
    linarith
  · intro hup
    by_cases hrl : rl < brdf_dw kd ks
    · exact hdiff hrl
    · rw [sample_brdf_direction lib kd ks n v norm ruv rl hks0] at hup
      have hz : 0 < (sample_brdf_local lib kd ks n v norm ruv rl).1.z := by
        have := frame_z_coordinate (lib.frame_from_z norm) hframe.1
          (sample_brdf_local lib kd ks n v norm ruv rl).1
        rw [hframe.2] at this
        rw [this] at hup
        exact hup
      rw [sample_brdf_local_specular lib kd ks n v norm ruv rl hrl] at hz
      simp only [Vec3.add_z, Vec3.neg_z, Vec3.scale_z] at hz
      have hprod : 0 < (lib.sample_direction_hemispherical_cospower ruv n).z *
          dot (transform_direction_inverse (lib.frame_from_z norm) v)
            (lib.sample_direction_hemispherical_cospower ruv n) := by
        nlinarith
      have hhz : 0 < (lib.sample_direction_hemispherical_cospower ruv n).z := by
        rcases eq_or_lt_of_le hpow with h0 | h0
        · rw [← h0] at hprod; simp at hprod
        · exact h0
      have hvh : 0 < dot (transform_direction_inverse (lib.frame_from_z norm) v)
          (lib.sample_direction_hemispherical_cospower ruv n) :=
        (pos_iff_pos_of_mul_pos hprod).mp hhz
      have hdiv : 0 < sample_brdf_divisor lib kd ks n v norm ruv rl := by
        unfold sample_brdf_divisor
        rw [sample_brdf_local_specular lib kd ks n v norm ruv rl hrl]
        exact mul_pos (by norm_num) hvh
      refine ⟨hdiv, hpos hdiv ?_⟩
      rw [sample_brdf_local_specular lib kd ks n v norm ruv rl hrl]
      exact hhz

/-- C10: for a `sqrt` with `sqrt(x*x) = x` on `x ≥ 0`: (1) for unit `v`, `h` with `dot(v,h) > 0`,
the direction `l = -v + 2*dot(v,h)*h` of the specular branch is a unit vector and
`normalize(l + v) = h`; (2) for `ks` nonzero, in both branches of `sample_brdf` (in the
specular one for unit `v_local`, `h_local` with `dot(v_local,h_local) > 0`), `h_local` is
the half-vector of `v_local` and the returned local direction, and the returned pdf is the
mixture density `mixture_pdf` evaluated at the returned local direction alone. -/
theorem half_vector_consistency (lib : Lib R) (hsqrt : ∀ x, 0 ≤ x → lib.sqrt (x * x) = x) :
    (∀ v h : Vec3 R, dot v v = 1 → dot h h = 1 → 0 < dot v h →
      dot ((-v) + (h.scale 2).scale (dot v h)) ((-v) + (h.scale 2).scale (dot v h)) = 1 ∧
      normalize lib (((-v) + (h.scale 2).scale (dot v h)) + v) = h) ∧
    (∀ (kd ks : Vec3 R) (n : R) (v norm : Vec3 R) (ruv : Vec2 R) (rl : R), ks ≠ zero3f →
      (¬ rl < brdf_dw kd ks →
        dot (transform_direction_inverse (lib.frame_from_z norm) v)
          (transform_direction_inverse (lib.frame_from_z norm) v) = 1 ∧
        dot (lib.sample_direction_hemispherical_cospower ruv n)
          (lib.sample_direction_hemispherical_cospower ruv n) = 1 ∧
        0 < dot (transform_direction_inverse (lib.frame_from_z norm) v)
          (lib.sample_direction_hemispherical_cospower ruv n)) →
      (sample_brdf_local lib kd ks n v norm ruv rl).2 =
        normalize lib ((sample_brdf_local lib kd ks n v norm ruv rl).1 +
          transform_direction_inverse (lib.frame_from_z norm) v) ∧
      (sample_brdf lib kd ks n v norm ruv rl).2 =
        mixture_pdf lib kd ks n v norm (sample_brdf_local lib kd ks n v norm ruv rl).1) := by
  have partA : ∀ v h : Vec3 R, dot v v = 1 → dot h h = 1 → 0 < dot v h →
      dot ((-v) + (h.scale 2).scale (dot v h)) ((-v) + (h.scale 2).scale (dot v h)) = 1 ∧
      normalize lib (((-v) + (h.scale 2).scale (dot v h)) + v) = h := by
    intro v h hv hh hvh
    constructor
    · simp only [dot, Vec3.add_x, Vec3.add_y, Vec3.add_z, Vec3.neg_x, Vec3.neg_y, Vec3.neg_z,
        Vec3.scale_x, Vec3.scale_y, Vec3.scale_z] at hv hh ⊢
      linear_combination hv + 4 * (v.x * h.x + v.y * h.y + v.z * h.z) ^ 2 * hh
    · have hsum : ((-v) + (h.scale 2).scale (dot v h)) + v = h.scale (2 * dot v h) := by
        ext <;> simp <;> ring
      have hlen : lengthSqr (h.scale (2 * dot v h)) = (2 * dot v h) * (2 * dot v h) := by
        have : lengthSqr (h.scale (2 * dot v h)) = (2 * dot v h) * (2 * dot v h) * dot h h := by
          simp only [lengthSqr, dot, Vec3.scale_x, Vec3.scale_y, Vec3.scale_z]
          ring
        rw [this, hh, mul_one]
      have hne : (2 * dot v h) ≠ 0 := by positivity
      rw [hsum]
      unfold normalize length
      rw [hlen, hsqrt _ (by positivity)]
      ext <;> simp [hne]
  refine ⟨partA, ?_⟩
  intro kd ks n v norm ruv rl hks0 hspec
  have hhalf : (sample_brdf_local lib kd ks n v norm ruv rl).2 =
      normalize lib ((sample_brdf_local lib kd ks n v norm ruv rl).1 +
        transform_direction_inverse (lib.frame_from_z norm) v) := by
    by_cases hrl : rl < brdf_dw kd ks
    · rw [sample_brdf_local_diffuse lib kd ks n v norm ruv rl hrl]
    · obtain ⟨h1, h2, h3⟩ := hspec hrl
      rw [sample_brdf_local_specular lib kd ks n v norm ruv rl hrl]
      exact ((partA _ _ h1 h2 h3).2).symm
  refine ⟨hhalf, ?_⟩
  rw [sample_brdf_pdf lib kd ks n v norm ruv rl hks0]
  unfold mixture_pdf sample_brdf_divisor
  simp only
  rw [← hhalf]

end SamplerClaims

section EstimatorClaims

variable {R : Type} [LinearOrderedField R] [FloorRing R] {G : Type}

/-- C3: for `path_max_depth = D ≥ 0`, the call `pathtrace_ray(scene, ray, rng, 0)` returns (the
embedding is a total function, its recursion decreasing `D - depth`), and the `intersect`
queries it issues are made at the depths `0, 1, ..., k` exactly once each, for some `k ≤ D`:
at most `D + 1` nested queries, each recursive call made at `depth + 1` and only while
`depth < D`. -/
theorem depth_bound (lib : Lib R) (orc : Oracles R G) (scene : Scene R) (ray : Ray3 R) (rng : G)
    (D : Nat) (hD : scene.path_max_depth = (D : Int)) :
    (pathtrace_ray lib orc scene ray rng 0).queries.length ≤ D + 1 ∧
    ∃ k : Nat, k ≤ D ∧ (pathtrace_ray lib orc scene ray rng 0).queries =
      (List.range (k + 1)).map (fun (i : Nat) => (i : Int)) := by
  obtain ⟨k, hk, hq⟩ := pathtrace_ray_queries lib orc scene D 0 ray rng (by omega)
  have hq2 : (pathtrace_ray lib orc scene ray rng 0).queries =
      (List.range (k + 1)).map (fun (i : Nat) => (i : Int)) := by
    rw [hq]
    apply List.map_congr_left
    intro i _
    simp
  refine ⟨?_, k, hk, hq2⟩
  rw [hq2]
  simp
  omega

/-- C4: with `path_shadows = false` the result of `pathtrace_ray` (radiance, final state of
the random stream, queries) is the same for any two shadow oracles, and equals the result
with `path_shadows = true` under the shadow oracle that never reports occlusion; a point
light adds its `shade` when shadows are off and `shade` is nonzero, and adds nothing when
shadows are on and the oracle reports its segment occluded. -/
theorem shadow_toggling (lib : Lib R) (orc : Oracles R G) (scene : Scene R) (ray : Ray3 R)
    (rng : G) (depth : Int) :
    (∀ s1 s2 : ShadowRay R → Bool,
      pathtrace_ray lib (orc.set_shadow s1) (scene.set_shadows false) ray rng depth =
        pathtrace_ray lib (orc.set_shadow s2) (scene.set_shadows false) ray rng depth) ∧
    (∀ s : ShadowRay R → Bool,
      pathtrace_ray lib (orc.set_shadow s) (scene.set_shadows false) ray rng depth =
        pathtrace_ray lib (orc.set_shadow (fun _ => false)) (scene.set_shadows true)
          ray rng depth) ∧
    (∀ (sh : Shading R) (c : Vec3 R) (light : Light R),
      point_light_shade lib sh light ≠ zero3f →
      point_light_step lib orc (scene.set_shadows false) sh c light =
        c + point_light_shade lib sh light) ∧
    (∀ (sh : Shading R) (c : Vec3 R) (light : Light R),
      orc.intersect_shadow (ShadowRay.segment sh.pos light.frame.o) = true →
      point_light_step lib orc (scene.set_shadows true) sh c light = c) := by
  refine ⟨?_, ?_, ?_, ?_⟩
  · intro s1 s2
    exact pathtrace_ray_shadow_congr lib orc scene false false s1 s2
      (fun c shade sray => rfl) _ depth ray rng rfl
  · intro s
    exact pathtrace_ray_shadow_congr lib orc scene false true s (fun _ => false)
      (fun c shade sray => rfl) _ depth ray rng rfl
  · intro sh c light hne
    unfold point_light_step
    simp only [hne, if_false]
    rfl
  · intro sh c light hocc
    unfold point_light_step accumulate
    by_cases h0 : point_light_shade lib sh light = zero3f
    · simp [h0]
    · simp [h0, Scene.set_shadows, hocc]

/-- C9: on a hit, in a scene with no point lights, no surface with nonzero material emission,
no background texture, and `depth ≥ path_max_depth`, `pathtrace_ray` returns
`ambient * kd + ke` when `depth = 0` and `ambient * kd` when `depth ≠ 0`, with `kd`, `ke` the
texture-resolved values of the hit material. -/
theorem emission_first_bounce (lib : Lib R) (orc : Oracles R G) (scene : Scene R) (ray : Ray3 R)
    (rng : G) (depth : Int) (hhit : (orc.intersect ray).hit = true)
    (hl : scene.lights = []) (hs : ∀ surf ∈ scene.surfaces, surf.mat.ke = zero3f)
    (hb : scene.background_txt = none) (hd : scene.path_max_depth ≤ depth) :
    (depth = 0 → (pathtrace_ray lib orc scene ray rng depth).c =
      scene.ambient *
        lookup_scaled_texture (orc.intersect ray).mat.kd (orc.intersect ray).mat.kd_txt
          (orc.intersect ray).texcoord true +
        lookup_scaled_texture (orc.intersect ray).mat.ke (orc.intersect ray).mat.ke_txt
          (orc.intersect ray).texcoord true) ∧
    (depth ≠ 0 → (pathtrace_ray lib orc scene ray rng depth).c =
      scene.ambient *
        lookup_scaled_texture (orc.intersect ray).mat.kd (orc.intersect ray).mat.kd_txt
          (orc.intersect ray).texcoord true) := by
  rw [pathtrace_ray_leaf lib orc scene ray rng depth hhit hd,
    direct_light_dark lib orc scene _ rng depth hl hs hb]
  constructor
  · intro h0
    simp only [h0, if_true]
    rfl
  · intro h0
    simp only [h0, if_false]
    rfl

/-- C2 (amended): in a scene with zero point lights, zero emission on every material and
`path_max_depth = 0`, `pathtrace_ray` at depth 0 returns exactly `eval_env(background,
background_txt, ray.d)` when the ray misses, and exactly `ambient * kd` when the ray hits and
the scene has no background texture. -/
theorem no_light_determinism (lib : Lib R) (orc : Oracles R G) (scene : Scene R) (ray : Ray3 R)
    (rng : G) (hl : scene.lights = []) (hs : ∀ surf ∈ scene.surfaces, surf.mat.ke = zero3f)
    (hm : (orc.intersect ray).mat.ke = zero3f) (hD : scene.path_max_depth = 0) :
    ((orc.intersect ray).hit = false →
      (pathtrace_ray lib orc scene ray rng 0).c =
        eval_env lib scene.background scene.background_txt ray.d) ∧
    ((orc.intersect ray).hit = true → scene.background_txt = none →
      (pathtrace_ray lib orc scene ray rng 0).c =
        scene.ambient *
          lookup_scaled_texture (orc.intersect ray).mat.kd (orc.intersect ray).mat.kd_txt
            (orc.intersect ray).texcoord true) := by
  constructor
  · intro hmiss
    rw [pathtrace_ray_miss lib orc scene ray rng 0 hmiss]
  · intro hhit hb
    rw [pathtrace_ray_leaf lib orc scene ray rng 0 hhit (by omega),
      direct_light_dark lib orc scene _ rng 0 hl hs hb]
    simp only [if_true]
    show scene.ambient * _ + lookup_scaled_texture _ _ _ true = _
    rw [hm, lookup_zero3f, Vec3.add_zero3f]
    rfl

end EstimatorClaims

theorem rat_sqrt_sq (q : ℚ) (hq : 0 ≤ q) : Rat.sqrt (q * q) = q := by
  rw [Rat.sqrt_eq, abs_of_nonneg hq]

theorem rat_sqrt_9_25 : Rat.sqrt (9 / 25) = 3 / 5 := by
  have : (9 / 25 : ℚ) = 3 / 5 * (3 / 5) := by norm_num
  rw [this, rat_sqrt_sq _ (by norm_num)]

theorem rat_sqrt_16_25 : Rat.sqrt (16 / 25) = 4 / 5 := by
  have : (16 / 25 : ℚ) = 4 / 5 * (4 / 5) := by norm_num
  rw [this, rat_sqrt_sq _ (by norm_num)]

theorem testLib_cosine_sample :
    testLib.sample_direction_hemispherical_cosine ⟨0, 9 / 25⟩ = ⟨4 / 5, 0, 3 / 5⟩ := by
  simp only [testLib, plainLib, rat_sqrt_9_25, cos_turn, sin_turn]
  norm_num [rat_sqrt_16_25]

theorem testLib_frame (w : Vec3 ℚ) :
    transform_direction (testLib.frame_from_z ⟨0, 0, 1⟩) w = w := by
  ext <;> simp [transform_direction, testLib, plainLib]

theorem lookup_white (value : Vec3 ℚ) (uv : Vec2 ℚ) (tile : Bool) :
    lookup_scaled_texture value (some whiteTexture) uv tile = value * one3f :=
  lookup_const value one3f 1 1 uv tile

/-! ### The rational instance meets the library contracts -/

theorem rat_sqrt_pos (q : ℚ) (hq : 0 < q) : 0 < Rat.sqrt q := by
  unfold Rat.sqrt
  rw [Rat.mkRat_eq_div]
  have hn : 0 < q.num := Rat.num_pos.mpr hq
  have h1 : 0 < Int.sqrt q.num := by
    unfold Int.sqrt
    have : 0 < Nat.sqrt (Int.toNat q.num) := Nat.sqrt_pos.mpr (by omega)
    exact_mod_cast this
  have h2 : 0 < Nat.sqrt q.den := Nat.sqrt_pos.mpr q.den_pos
  have h1' : (0 : ℚ) < (Int.sqrt q.num : ℚ) := by exact_mod_cast h1
  have h2' : (0 : ℚ) < ((Nat.sqrt q.den : ℕ) : ℚ) := by exact_mod_cast h2
  exact div_pos h1' (by exact_mod_cast h2')

theorem testLib_frame_orthonormal :
    (testLib.frame_from_z ⟨0, 0, 1⟩).orthonormal ∧
      (testLib.frame_from_z ⟨0, 0, 1⟩).z = ⟨0, 0, 1⟩ := by
  refine ⟨?_, rfl⟩
  simp [Frame.orthonormal, dot, testLib, plainLib]

theorem testLib_cosine_pdf_nonneg (w : Vec3 ℚ) :
    0 ≤ testLib.sample_direction_hemispherical_cosine_pdf w := by
  simp only [testLib, plainLib]
  split
  · exact le_refl _
  · rename_i h
    have : 0 < w.z := lt_of_not_ge h
    positivity

theorem testLib_cospower_pdf_zero (w : Vec3 ℚ) :
    0 ≤ testLib.sample_direction_hemispherical_cospower_pdf w 0 ∧
      (0 < w.z → 0 < testLib.sample_direction_hemispherical_cospower_pdf w 0) := by
  simp only [testLib, plainLib, pow_nat]
  constructor
  · split
    · exact le_refl _
    · norm_num
  · intro h
    rw [if_neg (not_le.mpr h)]
    norm_num

theorem pow_nat_one (x : ℚ) : pow_nat x (1 / (0 + 1)) = x := by
  simp [pow_nat]

theorem testLib_cospower_sample :
    testLib.sample_direction_hemispherical_cospower ⟨1 / 2, 3 / 5⟩ 0 = ⟨-(4 / 5), 0, 3 / 5⟩ := by
  simp only [testLib, plainLib, pow_nat_one, cos_turn, sin_turn]
  norm_num [rat_sqrt_16_25]

theorem testLib_cospower_sample_up :
    testLib.sample_direction_hemispherical_cospower ⟨0, 3 / 5⟩ 0 = ⟨4 / 5, 0, 3 / 5⟩ := by
  simp only [testLib, plainLib, pow_nat_one, cos_turn, sin_turn]
  norm_num [rat_sqrt_16_25]

theorem testLib_local (v : Vec3 ℚ) :
    transform_direction_inverse (testLib.frame_from_z ⟨0, 0, 1⟩) v = v := by
  ext <;> simp [transform_direction_inverse, testLib, plainLib, dot]

theorem brdf_dw_white : brdf_dw (one3f : Vec3 ℚ) one3f = 1 / 2 := by
  simp [brdf_dw, mean, one3f]
  norm_num

theorem one3f_ne_zero3f : (one3f : Vec3 ℚ) ≠ zero3f := by
  intro h
  have := congrArg Vec3.x h
  simp [one3f, zero3f] at this

/-- C5 (counterexample): `kd = ks = (1,1,1)`, `n = 0`, normal `(0,0,1)`, unit view direction
`v = (4/5, 0, 3/5)` with `dot(v, normal) = 3/5 > 0`, `ruv = (1/2, 3/5)`, `rl = 1/2`.  The
mixture weight is `dw = 1/2`, so the specular branch is taken; the half-vector drawn is the
unit upper-hemisphere vector `(-4/5, 0, 3/5)`, the divisor `4*dot(v_local,h_local)` is
`-28/25` and the returned pdf is `-25/352`: negative. -/
theorem sample_brdf_pdf_negative :
    dot (⟨4 / 5, 0, 3 / 5⟩ : Vec3 ℚ) ⟨4 / 5, 0, 3 / 5⟩ = 1 ∧
    0 < dot (⟨4 / 5, 0, 3 / 5⟩ : Vec3 ℚ) ⟨0, 0, 1⟩ ∧
    brdf_dw (one3f : Vec3 ℚ) one3f = 1 / 2 ∧
    (sample_brdf_local testLib one3f one3f 0 ⟨4 / 5, 0, 3 / 5⟩ ⟨0, 0, 1⟩ ⟨1 / 2, 3 / 5⟩
      (1 / 2)).2 = ⟨-(4 / 5), 0, 3 / 5⟩ ∧
    sample_brdf_divisor testLib one3f one3f 0 ⟨4 / 5, 0, 3 / 5⟩ ⟨0, 0, 1⟩ ⟨1 / 2, 3 / 5⟩
      (1 / 2) = -(28 / 25) ∧
    (sample_brdf testLib one3f one3f 0 ⟨4 / 5, 0, 3 / 5⟩ ⟨0, 0, 1⟩ ⟨1 / 2, 3 / 5⟩ (1 / 2)).2 =
      -(25 / 352) ∧
    ¬ 0 ≤ (sample_brdf testLib one3f one3f 0 ⟨4 / 5, 0, 3 / 5⟩ ⟨0, 0, 1⟩ ⟨1 / 2, 3 / 5⟩
      (1 / 2)).2 := by
  have hrl : ¬ (1 / 2 : ℚ) < brdf_dw (one3f : Vec3 ℚ) one3f := by
    rw [brdf_dw_white]; norm_num
  have hloc := sample_brdf_local_specular testLib one3f one3f 0 ⟨4 / 5, 0, 3 / 5⟩ ⟨0, 0, 1⟩
    ⟨1 / 2, 3 / 5⟩ (1 / 2) hrl
  rw [testLib_cospower_sample, testLib_local] at hloc
  have hdiv : sample_brdf_divisor testLib one3f one3f 0 ⟨4 / 5, 0, 3 / 5⟩ ⟨0, 0, 1⟩
      ⟨1 / 2, 3 / 5⟩ (1 / 2) = -(28 / 25) := by
    unfold sample_brdf_divisor
    rw [hloc, testLib_local]
    simp [dot]
    norm_num
  have hpdf : (sample_brdf testLib one3f one3f 0 ⟨4 / 5, 0, 3 / 5⟩ ⟨0, 0, 1⟩ ⟨1 / 2, 3 / 5⟩
      (1 / 2)).2 = -(25 / 352) := by
    rw [sample_brdf_pdf _ _ _ _ _ _ _ _ one3f_ne_zero3f, hdiv, hloc, brdf_dw_white]
    simp [testLib, plainLib, pow_nat, dot]
    norm_num
  refine ⟨by simp [dot]; norm_num, by simp [dot], brdf_dw_white, ?_, hdiv, hpdf, ?_⟩
  · rw [hloc]
  · rw [hpdf]; norm_num

/-- C2 (counterexample): a scene with zero point lights, zero emission, `path_max_depth = 0`
and a white background texture; the camera ray hits a white diffuse surface (`kd = 1`,
ambient `1/10`).  `pathtrace_ray` at depth 0 returns `11/10` per channel, not
`ambient * kd = 1/10`: the environment next-event estimation adds its term. -/
theorem no_light_determinism_fails :
    (darkScene (some whiteTexture)).lights = [] ∧
    (∀ surf ∈ (darkScene (some whiteTexture)).surfaces, surf.mat.ke = zero3f) ∧
    testHit.mat.ke = zero3f ∧ (darkScene (some whiteTexture)).path_max_depth = 0 ∧
    ((testOrc testHit false ⟨0, 9 / 25⟩ 0).intersect testRay).hit = true ∧
    (pathtrace_ray testLib (testOrc testHit false ⟨0, 9 / 25⟩ 0) (darkScene (some whiteTexture))
      testRay 0 0).c = ⟨11 / 10, 11 / 10, 11 / 10⟩ ∧
    (darkScene (some whiteTexture)).ambient *
      lookup_scaled_texture testHit.mat.kd testHit.mat.kd_txt testHit.texcoord true =
        ⟨1 / 10, 1 / 10, 1 / 10⟩ := by
  refine ⟨rfl, by simp [darkScene], rfl, rfl, rfl, ?_, ?_⟩
  · rw [pathtrace_ray_leaf _ _ _ _ _ _ rfl (by simp [darkScene])]
    simp [direct_light, environment_step, darkScene, testOrc, shading, testHit, testMat,
      lookup_none, sample_brdf, sample_cosine, testLib_cosine_sample, accumulate,
      eval_brdf_diffuse, testLib_frame, eval_env, lookup_white]
    ext <;> simp [testLib, plainLib, one3f, dot] <;> norm_num
  · ext <;> simp [darkScene, testHit, testMat, lookup_none, one3f]

/-! ### The claims on concrete inputs -/

/-- C2 (witness): the dark scene without background texture on a hit, and with a background
texture on a miss. -/
theorem no_light_determinism_witness :
    ((darkScene none).lights = [] ∧ (darkScene none).path_max_depth = 0 ∧
      testHit.mat.ke = zero3f ∧ (darkScene none).background_txt = none) ∧
    (pathtrace_ray testLib (testOrc testHit false ⟨0, 9 / 25⟩ 0) (darkScene none) testRay
        0 0).c =
      (darkScene none).ambient *
        lookup_scaled_texture testHit.mat.kd testHit.mat.kd_txt testHit.texcoord true ∧
    (pathtrace_ray testLib (testOrc testMiss false ⟨0, 9 / 25⟩ 0) (darkScene (some whiteTexture))
        testRay 0 0).c =
      eval_env testLib (darkScene (some whiteTexture)).background
        (darkScene (some whiteTexture)).background_txt testRay.d :=
  ⟨⟨rfl, rfl, rfl, rfl⟩,
    (no_light_determinism testLib (testOrc testHit false ⟨0, 9 / 25⟩ 0) (darkScene none) testRay 0
      rfl (by simp [darkScene]) rfl rfl).2 rfl rfl,
    (no_light_determinism testLib (testOrc testMiss false ⟨0, 9 / 25⟩ 0)
      (darkScene (some whiteTexture)) testRay 0 rfl (by simp [darkScene]) rfl rfl).1 rfl⟩

/-- C3 (witness): a scene with `path_max_depth = 2` in which every ray hits. -/
theorem depth_bound_witness :
    bounceScene.path_max_depth = ((2 : Nat) : Int) ∧
    ((pathtrace_ray testLib (testOrc testHit false ⟨0, 9 / 25⟩ 0) bounceScene testRay
        0 0).queries.length ≤ 2 + 1 ∧
      ∃ k : Nat, k ≤ 2 ∧
        (pathtrace_ray testLib (testOrc testHit false ⟨0, 9 / 25⟩ 0) bounceScene testRay
          0 0).queries = (List.range (k + 1)).map (fun (i : Nat) => (i : Int))) :=
  ⟨rfl, depth_bound testLib (testOrc testHit false ⟨0, 9 / 25⟩ 0) bounceScene testRay 0 2 rfl⟩

theorem testLight_shade :
    point_light_shade testLib (shading testRay testHit) testLight = ⟨7 / 88, 7 / 88, 7 / 88⟩ := by
  have hl : normalize testLib (testLight.frame.o - (shading testRay testHit).pos) =
      ⟨0, 0, 1⟩ := by
    have h22 : Rat.sqrt (2 * 2) = 2 := rat_sqrt_sq 2 (by norm_num)
    ext <;> simp [normalize, length, lengthSqr, dot, testLight, shading, testHit, testLib,
      plainLib, h22]
  unfold point_light_shade
  simp only [hl]
  simp only [shading, testHit, testMat, lookup_none, eval_brdf_diffuse]
  ext <;> simp [testLight, lengthSqr, dot, testLib, plainLib, one3f] <;> norm_num

/-- C4 (witness): a point light above a white surface, its segment reported occluded: the light
adds `7/88` per channel with shadows off and nothing with shadows on. -/
theorem shadow_toggling_witness :
    (point_light_shade testLib (shading testRay testHit) testLight ≠ zero3f ∧
      (testOrc testHit true ⟨0, 9 / 25⟩ 0).intersect_shadow
        (ShadowRay.segment (shading testRay testHit).pos testLight.frame.o) = true) ∧
    point_light_step testLib (testOrc testHit true ⟨0, 9 / 25⟩ 0)
        (bounceScene.set_shadows false) (shading testRay testHit) zero3f testLight =
      zero3f + point_light_shade testLib (shading testRay testHit) testLight ∧
    point_light_step testLib (testOrc testHit true ⟨0, 9 / 25⟩ 0)
        (bounceScene.set_shadows true) (shading testRay testHit) zero3f testLight = zero3f :=
  have hne : point_light_shade testLib (shading testRay testHit) testLight ≠ zero3f := by
    rw [testLight_shade]
    intro h
    have := congrArg Vec3.x h
    simp [zero3f] at this
  ⟨⟨hne, rfl⟩,
    (shadow_toggling testLib (testOrc testHit true ⟨0, 9 / 25⟩ 0) bounceScene testRay 0 0).2.2.1
      (shading testRay testHit) zero3f testLight hne,
    (shadow_toggling testLib (testOrc testHit true ⟨0, 9 / 25⟩ 0) bounceScene testRay 0 0).2.2.2
      (shading testRay testHit) zero3f testLight rfl⟩

/-- C9 (witness): an emitting surface hit at depth 0 and at depth 1 in the dark scene. -/
theorem emission_first_bounce_witness :
    (((testOrc glowHit false ⟨0, 9 / 25⟩ 0).intersect testRay).hit = true ∧
      (darkScene none).lights = [] ∧ (darkScene none).background_txt = none ∧
      (darkScene none).path_max_depth ≤ 0 ∧ (darkScene none).path_max_depth ≤ 1) ∧
    (pathtrace_ray testLib (testOrc glowHit false ⟨0, 9 / 25⟩ 0) (darkScene none) testRay
        0 0).c =
      (darkScene none).ambient *
        lookup_scaled_texture glowHit.mat.kd glowHit.mat.kd_txt glowHit.texcoord true +
        lookup_scaled_texture glowHit.mat.ke glowHit.mat.ke_txt glowHit.texcoord true ∧
    (pathtrace_ray testLib (testOrc glowHit false ⟨0, 9 / 25⟩ 0) (darkScene none) testRay
        0 1).c =
      (darkScene none).ambient *
        lookup_scaled_texture glowHit.mat.kd glowHit.mat.kd_txt glowHit.texcoord true :=
  ⟨⟨rfl, rfl, rfl, by decide, by decide⟩,
    (emission_first_bounce testLib (testOrc glowHit false ⟨0, 9 / 25⟩ 0) (darkScene none)
      testRay 0 0 rfl rfl (by simp [darkScene]) rfl (by decide)).1 rfl,
    (emission_first_bounce testLib (testOrc glowHit false ⟨0, 9 / 25⟩ 0) (darkScene none)
      testRay 0 1 rfl rfl (by simp [darkScene]) rfl (by decide)).2 (by decide)⟩

/-- C5 (witness): the diffuse branch (`rl = 0 < dw = 1/2`) for the view direction `(0,0,1)`. -/
theorem sample_brdf_density_witness :
    (dot (⟨0, 0, 1⟩ : Vec3 ℚ) ⟨0, 0, 1⟩ = 1 ∧ (0 : ℚ) < dot (⟨0, 0, 1⟩ : Vec3 ℚ) ⟨0, 0, 1⟩ ∧
      (one3f : Vec3 ℚ) ≠ zero3f ∧ (0 : ℚ) < brdf_dw (one3f : Vec3 ℚ) one3f) ∧
    0 < sample_brdf_divisor testLib one3f one3f 0 ⟨0, 0, 1⟩ ⟨0, 0, 1⟩ ⟨0, 9 / 25⟩ 0 ∧
    0 < (sample_brdf testLib one3f one3f 0 ⟨0, 0, 1⟩ ⟨0, 0, 1⟩ ⟨0, 9 / 25⟩ 0).2 :=
  have hdw : (0 : ℚ) < brdf_dw (one3f : Vec3 ℚ) one3f := by rw [brdf_dw_white]; norm_num
  ⟨⟨by simp [dot], by simp [dot], one3f_ne_zero3f, hdw⟩,
    (sample_brdf_density testLib one3f one3f 0 ⟨0, 0, 1⟩ ⟨0, 0, 1⟩ ⟨0, 9 / 25⟩ 0
      (by simp [one3f]) (by simp [one3f]) one3f_ne_zero3f (by simp [dot]) (by simp [dot])
      rat_sqrt_pos testLib_frame_orthonormal
      (by rw [testLib_cosine_sample]; simp [dot]; norm_num)
      (by simp only [testLib, plainLib, pow_nat]; positivity)
      testLib_cosine_pdf_nonneg testLib_cospower_pdf_zero).2.1 hdw⟩

/-- C10 (witness): `v = (3/5, 0, 4/5)`, `h = (4/5, 0, 3/5)`, and the specular branch drawing that
half-vector. -/
theorem half_vector_consistency_witness :
    (dot (⟨3 / 5, 0, 4 / 5⟩ : Vec3 ℚ) ⟨3 / 5, 0, 4 / 5⟩ = 1 ∧
      dot (⟨4 / 5, 0, 3 / 5⟩ : Vec3 ℚ) ⟨4 / 5, 0, 3 / 5⟩ = 1 ∧
      (0 : ℚ) < dot (⟨3 / 5, 0, 4 / 5⟩ : Vec3 ℚ) ⟨4 / 5, 0, 3 / 5⟩) ∧
    (dot ((-(⟨3 / 5, 0, 4 / 5⟩ : Vec3 ℚ)) +
        ((⟨4 / 5, 0, 3 / 5⟩ : Vec3 ℚ).scale 2).scale (dot ⟨3 / 5, 0, 4 / 5⟩ ⟨4 / 5, 0, 3 / 5⟩))
        ((-(⟨3 / 5, 0, 4 / 5⟩ : Vec3 ℚ)) +
        ((⟨4 / 5, 0, 3 / 5⟩ : Vec3 ℚ).scale 2).scale (dot ⟨3 / 5, 0, 4 / 5⟩ ⟨4 / 5, 0, 3 / 5⟩))
        = 1 ∧
      normalize testLib (((-(⟨3 / 5, 0, 4 / 5⟩ : Vec3 ℚ)) +
        ((⟨4 / 5, 0, 3 / 5⟩ : Vec3 ℚ).scale 2).scale (dot ⟨3 / 5, 0, 4 / 5⟩ ⟨4 / 5, 0, 3 / 5⟩)) +
        ⟨3 / 5, 0, 4 / 5⟩) = ⟨4 / 5, 0, 3 / 5⟩) ∧
    ((sample_brdf_local testLib one3f one3f 0 ⟨3 / 5, 0, 4 / 5⟩ ⟨0, 0, 1⟩ ⟨0, 3 / 5⟩ (1 / 2)).2 =
        normalize testLib
          ((sample_brdf_local testLib one3f one3f 0 ⟨3 / 5, 0, 4 / 5⟩ ⟨0, 0, 1⟩ ⟨0, 3 / 5⟩
            (1 / 2)).1 +
          transform_direction_inverse (testLib.frame_from_z ⟨0, 0, 1⟩) ⟨3 / 5, 0, 4 / 5⟩) ∧
      (sample_brdf testLib one3f one3f 0 ⟨3 / 5, 0, 4 / 5⟩ ⟨0, 0, 1⟩ ⟨0, 3 / 5⟩ (1 / 2)).2 =
        mixture_pdf testLib one3f one3f 0 ⟨3 / 5, 0, 4 / 5⟩ ⟨0, 0, 1⟩
          (sample_brdf_local testLib one3f one3f 0 ⟨3 / 5, 0, 4 / 5⟩ ⟨0, 0, 1⟩ ⟨0, 3 / 5⟩
            (1 / 2)).1) :=
  have hv : dot (⟨3 / 5, 0, 4 / 5⟩ : Vec3 ℚ) ⟨3 / 5, 0, 4 / 5⟩ = 1 := by simp [dot]; norm_num
  have hh : dot (⟨4 / 5, 0, 3 / 5⟩ : Vec3 ℚ) ⟨4 / 5, 0, 3 / 5⟩ = 1 := by simp [dot]; norm_num
  have hvh : (0 : ℚ) < dot (⟨3 / 5, 0, 4 / 5⟩ : Vec3 ℚ) ⟨4 / 5, 0, 3 / 5⟩ := by
    simp [dot]; norm_num
  ⟨⟨hv, hh, hvh⟩,
    (half_vector_consistency testLib rat_sqrt_sq).1 ⟨3 / 5, 0, 4 / 5⟩ ⟨4 / 5, 0, 3 / 5⟩ hv hh hvh,
    (half_vector_consistency testLib rat_sqrt_sq).2 one3f one3f 0 ⟨3 / 5, 0, 4 / 5⟩ ⟨0, 0, 1⟩
      ⟨0, 3 / 5⟩ (1 / 2) one3f_ne_zero3f
      (fun _ => by rw [testLib_local, testLib_cospower_sample_up]; exact ⟨hv, hh, hvh⟩)⟩

theorem toInt_neg_half : toInt (-(1 / 2) : ℚ) = 0 := by
  unfold toInt
  rw [if_neg (by norm_num)]
  rw [Int.ceil_eq_iff]
  norm_num

theorem toInt_one : toInt (1 : ℚ) = 1 := by
  unfold toInt
  rw [if_pos (by norm_num)]
  simp

/-- C7 (failing input): a texture of 2 by 2 texels and `uv = (-1/4, 1/2)`, the coordinates
that `eval_env` computes for the direction `(-1, 0, 0)`.  The code takes `i = int(-1/2) = 0`,
not `floor(-1/2) = -1`, and the weight `s = -1/2` is outside `[0, 1)`; on the texture with a
white and a black column the blend is `3/2`, above every texel. -/
theorem texel_weight_negative :
    (testLib.atan2 (-1) 0 / (2 * testLib.pif) = -(1 / 4) ∧
      1 - testLib.acos 0 / testLib.pif = 1 / 2) ∧
    texel_index stripeTexture ⟨-(1 / 4), 1 / 2⟩ = (0, 1) ∧
    Int.floor ((-(1 / 4) : ℚ) * ((stripeTexture.width : Int) : ℚ)) = -1 ∧
    texel_weight stripeTexture ⟨-(1 / 4), 1 / 2⟩ = (-(1 / 2), 0) ∧
    ¬ (0 ≤ (texel_weight stripeTexture ⟨-(1 / 4), 1 / 2⟩).1) ∧
    eval_env testLib one3f (some stripeTexture) ⟨-1, 0, 0⟩ = ⟨3 / 2, 3 / 2, 3 / 2⟩ := by
  have hx : (-(1 / 4) : ℚ) * ((stripeTexture.width : Int) : ℚ) = -(1 / 2) := by
    simp [stripeTexture]; norm_num
  have hy : (1 / 2 : ℚ) * ((stripeTexture.height : Int) : ℚ) = 1 := by
    simp [stripeTexture]
  have hi : texel_index stripeTexture ⟨-(1 / 4), 1 / 2⟩ = (0, 1) := by
    simp only [texel_index, hx, hy, toInt_neg_half, toInt_one]
  have hw : texel_weight stripeTexture ⟨-(1 / 4), 1 / 2⟩ = (-(1 / 2), 0) := by
    simp only [texel_weight, hi, hx, hy]
    norm_num
  have huv : testLib.atan2 (-1) 0 / (2 * testLib.pif) = -(1 / 4) ∧
      1 - testLib.acos 0 / testLib.pif = 1 / 2 := by
    simp [testLib, plainLib]; norm_num
  refine ⟨huv, hi, ?_, hw, ?_, ?_⟩
  · rw [hx, Int.floor_eq_iff]; norm_num
  · rw [hw]; norm_num
  · simp only [eval_env, huv.1, huv.2, lookup_scaled_texture, hi, hw]
    have h12 : Int.tmod 1 2 = 1 := rfl
    ext <;> simp [stripeTexture, tile_f, one3f, zero3f, h12] <;> norm_num

section DiffuseEnergy

open Real intervalIntegral

theorem diffuse_lobe_integral (a : ℝ) :
    (∫ _φ in (0 : ℝ)..(2 * π), ∫ θ in (0 : ℝ)..(π / 2), a / π * (sin θ * cos θ)) = a := by
  have hin : (∫ θ in (0 : ℝ)..(π / 2), a / π * (sin θ * cos θ)) = a / π * (1 / 2) := by
    rw [intervalIntegral.integral_const_mul, integral_sin_mul_cos₁]
    simp
  rw [hin, intervalIntegral.integral_const]
  have hpi : π ≠ 0 := Real.pi_ne_zero
  simp only [sub_zero, smul_eq_mul]
  field_simp
  ring

/-- C8: in real arithmetic (`pif = π`), for every `kd`, exponent `n`, view direction, normal and
light direction, `eval_brdf` with `ks = 0` and `microfacet = false` returns `kd/π`; and the
integral over the hemisphere (`φ ∈ [0,2π]`, `θ ∈ [0,π/2]`, light direction any function
`l θ φ` of the angles) of `eval_brdf * cos θ * sin θ` equals `kd`, per channel. -/
theorem diffuse_energy_conservation (lib : Lib ℝ) (hpi : lib.pif = π) (kd : Vec3 ℝ) (n : ℝ)
    (v norm : Vec3 ℝ) (l : ℝ → ℝ → Vec3 ℝ) :
    (∀ θ φ, eval_brdf lib kd zero3f n v (l θ φ) norm false = kd.divs π) ∧
    (∫ φ in (0 : ℝ)..(2 * π), ∫ θ in (0 : ℝ)..(π / 2),
      (eval_brdf lib kd zero3f n v (l θ φ) norm false).x * cos θ * sin θ) = kd.x ∧
    (∫ φ in (0 : ℝ)..(2 * π), ∫ θ in (0 : ℝ)..(π / 2),
      (eval_brdf lib kd zero3f n v (l θ φ) norm false).y * cos θ * sin θ) = kd.y ∧
    (∫ φ in (0 : ℝ)..(2 * π), ∫ θ in (0 : ℝ)..(π / 2),
      (eval_brdf lib kd zero3f n v (l θ φ) norm false).z * cos θ * sin θ) = kd.z := by
  have h0 : ∀ θ φ, eval_brdf lib kd zero3f n v (l θ φ) norm false = kd.divs π := by
    intro θ φ
    rw [eval_brdf_diffuse, hpi]
  refine ⟨h0, ?_, ?_, ?_⟩
  · have e : ∀ θ φ, (eval_brdf lib kd zero3f n v (l θ φ) norm false).x * cos θ * sin θ =
        kd.x / π * (sin θ * cos θ) := by
      intro θ φ; rw [h0]; simp only [Vec3.divs_x]; ring
    simp only [e]
    exact diffuse_lobe_integral kd.x
  · have e : ∀ θ φ, (eval_brdf lib kd zero3f n v (l θ φ) norm false).y * cos θ * sin θ =
        kd.y / π * (sin θ * cos θ) := by
      intro θ φ; rw [h0]; simp only [Vec3.divs_y]; ring
    simp only [e]
    exact diffuse_lobe_integral kd.y
  · have e : ∀ θ φ, (eval_brdf lib kd zero3f n v (l θ φ) norm false).z * cos θ * sin θ =
        kd.z / π * (sin θ * cos θ) := by
      intro θ φ; rw [h0]; simp only [Vec3.divs_z]; ring
    simp only [e]
    exact diffuse_lobe_integral kd.z

/-- C8 (witness): the real library instance, `kd = (1/2, 1/4, 1/8)`, exponent 10, light direction
in spherical coordinates around the normal `(0,0,1)`. -/
theorem diffuse_energy_conservation_witness :
    (plainLib π Real.sqrt (fun x y => x ^ y) (fun x z => Complex.arg ⟨z, x⟩) Real.arccos
      (fun t => cos (2 * π * t)) (fun t => sin (2 * π * t))).pif = π ∧
    (∫ φ in (0 : ℝ)..(2 * π), ∫ θ in (0 : ℝ)..(π / 2),
      (eval_brdf
        (plainLib π Real.sqrt (fun x y => x ^ y) (fun x z => Complex.arg ⟨z, x⟩) Real.arccos
          (fun t => cos (2 * π * t)) (fun t => sin (2 * π * t)))
        ⟨1 / 2, 1 / 4, 1 / 8⟩ zero3f 10 ⟨0, 0, 1⟩
        ((fun θ φ => (⟨sin θ * cos φ, sin θ * sin φ, cos θ⟩ : Vec3 ℝ)) θ φ)
        ⟨0, 0, 1⟩ false).x * cos θ * sin θ) = 1 / 2 :=
  ⟨rfl,
    (diffuse_energy_conservation
      (plainLib π Real.sqrt (fun x y => x ^ y) (fun x z => Complex.arg ⟨z, x⟩) Real.arccos
        (fun t => cos (2 * π * t)) (fun t => sin (2 * π * t)))
      rfl ⟨1 / 2, 1 / 4, 1 / 8⟩ 10 ⟨0, 0, 1⟩ ⟨0, 0, 1⟩
      (fun θ φ => (⟨sin θ * cos φ, sin θ * sin φ, cos θ⟩ : Vec3 ℝ))).2.1⟩

end DiffuseEnergy

/-- C6: for every integer `x` and every `size ≥ 1`, `tile_f x size` lies in `[0, size)` and is
congruent to `x` modulo `size`: it is the Euclidean remainder of `x` by `size`. -/
theorem tile_f_wrap (x size : Int) (h : 1 ≤ size) :
    0 ≤ tile_f x size ∧ tile_f x size < size ∧ (tile_f x size - x) % size = 0 ∧
      tile_f x size = x % size := by
  have e := tile_f_eq_emod x size h
  refine ⟨?_, ?_, ?_, e⟩
  · rw [e]; exact Int.emod_nonneg x (by omega)
  · rw [e]; exact Int.emod_lt_of_pos x (by omega)
  · rw [e]
    have := Int.emod_add_ediv x size
    have e2 : x % size - x = size * (-(x / size)) := by rw [Int.mul_neg]; omega
    rw [e2]; exact Int.mul_emod_right _ _

/-- C6 (witness): `tile_f(-7, 4) = 1`. -/
theorem tile_f_wrap_witness :
    (1 : Int) ≤ 4 ∧ (0 ≤ tile_f (-7) 4 ∧ tile_f (-7) 4 < 4 ∧ (tile_f (-7) 4 - (-7)) % 4 = 0 ∧
      tile_f (-7) 4 = (-7) % 4) :=
  ⟨by decide, tile_f_wrap (-7) 4 (by decide)⟩

end Pathtrace
